import Mathlib

/-!
Shallow embedding of the BTC chain-data indexer (`src/elastic.go`).

The Elasticsearch store is modelled as four in-memory collections of
(id, document) pairs plus an id counter for store-assigned document ids.
Searches return the first matching document, mirroring `Hits.Hits[0]`.
Upsert-by-id (`DocAsUpsert(true)`) updates the document with the given id
when present and inserts a partial document otherwise.  The boolean field
`updateBalanceFails` models the outcome of the store `Update` call inside
`UpdateBTCBlance` (the one store write whose error the spec discusses):
when it is `true` that write is rejected by the store, which the Go code
observes as `err != nil` from `client.Update().Do(ctx)`.

Monetary amounts are modelled as rationals: the Go code routes all
arithmetic through `shopspring/decimal`, which is exact on the values
involved, and `decimal.NewFromFloat` is value-preserving.
-/

namespace BtcChaindata

/-- `btcjson.Vin`: a transaction input.  `Txid`/`Vout` reference the spent
output; `Coinbase` is the coinbase script (empty for ordinary inputs). -/
structure Vin where
  Txid : String
  Vout : Nat
  Coinbase : String
  deriving Repr, DecidableEq

/-- `btcjson.Vout`: a transaction output.  `Addresses` flattens
`ScriptPubKey.Addresses`; `N` is the output index. -/
structure TxVout where
  Value : ℚ
  N : Nat
  Addresses : List String
  deriving Repr, DecidableEq

/-- `btcjson.TxRawResult`: one transaction of a verbose block. -/
structure Tx where
  Txid : String
  Time : Int
  Vin : List Vin
  Vout : List TxVout
  deriving Repr, DecidableEq

/-- `btcjson.GetBlockVerboseResult`: the fields the sync/rollback engine
reads (hash, height, ordered transaction list). -/
structure Block where
  Hash : String
  Height : Int
  Tx : List Tx
  deriving Repr, DecidableEq

/-- Modelled from the spec: the `voutUsed` object stored in a vout
document's `used` field (`{spendingTxid, spendingInputIndex}`); the type
itself lives in a repository file that is not under `src/`.  The Go code
fills `VinIndex` with `vin.Vout`. -/
structure voutUsed where
  Txid : String
  VinIndex : Nat
  deriving Repr, DecidableEq

/-- Modelled from the spec: the `VoutStream` document (UnspentOutput
record, §3) as produced by `BTCVoutStream` and read back from the `vout`
index; the struct's declaration is in a repository file not under `src/`.
Fields follow the `vout` index mapping in `src/elastic.go`
(`txidbelongto`, `value`, `voutindex`, `coinbase`, `addresses`, `used`);
`used = none` means unspent.  The mapping's `time` field is omitted: it
cannot be derived from `BTCVoutStream`'s arguments and no claim touches
it. -/
structure VoutStream where
  TxIDBelongTo : String
  Value : ℚ
  VoutIndex : Nat
  Coinbase : Bool
  Addresses : List String
  Used : Option voutUsed
  deriving Repr, DecidableEq

/-- Modelled from the spec: the `BTCBalance` document (AddressBalance
record, §3: identity `address`, field `amount`); declared in a repository
file not under `src/`. -/
structure BTCBalance where
  Address : String
  Amount : ℚ
  deriving Repr, DecidableEq

/-- Modelled from the spec: `{address, value}` summary entry used in the
`tx` index's nested `vins`/`vouts`; declared in a repository file not
under `src/`. -/
structure AddressWithValueInTx where
  Address : String
  Value : ℚ
  deriving Repr, DecidableEq

/-- Modelled from the spec: the IndexedTransaction document built by
`BTCTxStream` (§3: `txid`, `blockHash`, `fee`, `time`, inputs, outputs);
declared in a repository file not under `src/`.  `Fee` keeps the exact
decimal value that `fee.String()` serializes. -/
structure TxStream where
  Txid : String
  BlockHash : String
  Fee : ℚ
  Time : Int
  Vins : List AddressWithValueInTx
  Vouts : List AddressWithValueInTx
  deriving Repr, DecidableEq

/-- A stored document with its store-assigned id. -/
structure VoutDoc where
  id : Nat
  doc : VoutStream
  deriving Repr, DecidableEq

/-- A stored balance document with its store-assigned id. -/
structure BalanceDoc where
  id : Nat
  doc : BTCBalance
  deriving Repr, DecidableEq

/-- A stored transaction document with its store-assigned id. -/
structure TxDoc where
  id : Nat
  doc : TxStream
  deriving Repr, DecidableEq

/-- A block archived in the `block` index, keyed by its height (the Go
code gets it with `Id(blockHeightStr)`). -/
structure BlockDoc where
  height : Int
  block : Block
  deriving Repr, DecidableEq

/-- The document store: the four indices of `createIndices`, an id
counter for store-generated ids (`client.Index()` without an explicit
id), and the balance-write failure switch described in the module
docstring. -/
structure Store where
  blocks : List BlockDoc
  txs : List TxDoc
  vouts : List VoutDoc
  balances : List BalanceDoc
  nextId : Nat
  updateBalanceFails : Bool
  deriving Repr, DecidableEq

/-- Balance-index write events observed while syncing, used to state the
ordering properties of §4.4.  `txid` is the transaction being processed
when the write happened. -/
inductive BalOp where
  | credit
  | created
  | debit
  deriving Repr, DecidableEq

/-- One observed balance-index write. -/
structure Event where
  txid : String
  address : String
  op : BalOp
  value : ℚ
  deriving Repr, DecidableEq

/-- `FindVoutByVoutIndexAndBelongTxID`: first `vout` document matching
`txidbelongto = txidbelongto ∧ voutindex = voutindex`; `none` is the
"vout not found by the condition" error. -/
def FindVoutByVoutIndexAndBelongTxID (st : Store) (txidbelongto : String)
    (voutindex : Nat) : Option VoutDoc :=
  st.vouts.find? fun d =>
    d.doc.TxIDBelongTo = txidbelongto ∧ d.doc.VoutIndex = voutindex

/-- `FindVoutByUsedFieldAndBelongTxID`: first `vout` document matching
`txidbelongto = vin.Txid ∧ used.txid = txBelongto ∧ used.vinindex =
vin.Vout` (the inner-hit query is discarded by the second `.Query` call
in the Go code, so only the bool query filters). -/
def FindVoutByUsedFieldAndBelongTxID (st : Store) (vin : Vin)
    (txBelongto : String) : Option VoutDoc :=
  st.vouts.find? fun d =>
    d.doc.TxIDBelongTo = vin.Txid ∧ d.doc.Used = some ⟨txBelongto, vin.Vout⟩

/-- `FindBTCBlockByHeight`: get the archived block whose document id is
the height; `none` is the "not fount in es" error. -/
def FindBTCBlockByHeight (st : Store) (height : Int) : Option Block :=
  (st.blocks.find? fun d => d.height = height).map (·.block)

/-- `FindBalanceWithAddressOrInitWithAmount`: first `balance` document
whose `address` matches.  On a hit: `(some id, stored balance)`.  On a
miss the Go code returns a freshly initialized (unpersisted) balance
together with a non-nil error; that is the `(none, init)` case here. -/
def FindBalanceWithAddressOrInitWithAmount (st : Store) (address : String)
    (amount : ℚ) : Option Nat × BTCBalance :=
  match st.balances.find? fun d => d.doc.Address = address with
  | some d => (some d.id, d.doc)
  | none => (none, ⟨address, amount⟩)

/-- Upsert-by-id on the `balance` index (`DocAsUpsert(true)`) writing the
partial document `{"amount": amt}`: update the document with this id when
present, else insert a document carrying only the amount. -/
def upsertBalanceAmount (bs : List BalanceDoc) (id : Nat) (amt : ℚ) :
    List BalanceDoc :=
  if bs.any fun d => d.id = id then
    bs.map fun d => if d.id = id then ⟨d.id, ⟨d.doc.Address, amt⟩⟩ else d
  else
    bs ++ [⟨id, ⟨"", amt⟩⟩]

/-- The store `Update` call inside `UpdateBTCBlance`; rejected (leaving
the store unchanged) when `updateBalanceFails` is set. -/
def writeBalanceAmount (st : Store) (id : Nat) (amt : ℚ) : Store :=
  if st.updateBalanceFails then st
  else { st with balances := upsertBalanceAmount st.balances id amt }

/-- `UpdateBTCBlance`: recompute the amount with decimal arithmetic and
upsert it.  An unknown `operateType` is the only returned error; the
store write's own failure is printed and swallowed (`return nil`). -/
def UpdateBTCBlance (st : Store) (operateType : String) (id : Nat)
    (btcbalance : BTCBalance) (amount : ℚ) : Except String Store :=
  match operateType with
  | "add" => .ok (writeBalanceAmount st id (btcbalance.Amount + amount))
  | "sub" => .ok (writeBalanceAmount st id (btcbalance.Amount - amount))
  | _ => .error "operateType params error, it's value is one of the 'add' or sub'"

/-- Upsert-by-id on the `vout` index writing the partial document
`{"used": u}`. -/
def upsertVoutUsed (vs : List VoutDoc) (id : Nat) (u : Option voutUsed) :
    List VoutDoc :=
  if vs.any fun d => d.id = id then
    vs.map fun d => if d.id = id then ⟨d.id, { d.doc with Used := u }⟩ else d
  else
    vs ++ [⟨id, ⟨"", 0, 0, false, [], u⟩⟩]

/-- `UpdateVoutUsedField`: set the vout's `used` object to
`{txid := vinBelongTxid, vinindex := vin.Vout}`. -/
def UpdateVoutUsedField (st : Store) (id : Nat) (vinBelongTxid : String)
    (vin : Vin) : Store :=
  { st with vouts := upsertVoutUsed st.vouts id (some ⟨vinBelongTxid, vin.Vout⟩) }

/-- `client.Index()` on the `vout` index: bare insert under a fresh
store-generated id. -/
def indexVout (st : Store) (v : VoutStream) : Store :=
  { st with vouts := st.vouts ++ [⟨st.nextId, v⟩], nextId := st.nextId + 1 }

/-- `client.Index()` on the `balance` index: bare insert under a fresh
store-generated id. -/
def indexBalance (st : Store) (b : BTCBalance) : Store :=
  { st with balances := st.balances ++ [⟨st.nextId, b⟩], nextId := st.nextId + 1 }

/-- `client.Index()` on the `tx` index: bare insert under a fresh
store-generated id. -/
def indexTx (st : Store) (t : TxStream) : Store :=
  { st with txs := st.txs ++ [⟨st.nextId, t⟩], nextId := st.nextId + 1 }

/-- `client.Delete()` on the `vout` index by document id. -/
def deleteVout (st : Store) (id : Nat) : Store :=
  { st with vouts := st.vouts.filter fun d => d.id ≠ id }

/-- `DeleteTxstreamByBlockHash`: delete-by-query, removing every `tx`
document whose `blockhash` matches. -/
def DeleteTxstreamByBlockHash (st : Store) (blockHash : String) : Store :=
  { st with txs := st.txs.filter fun d => d.doc.BlockHash ≠ blockHash }

/-- `UpdateBTCBlanceByVout`: for every address on the vout, find its
balance document; misses are skipped silently, hits are updated through
`UpdateBTCBlance` with the vout's value, and an `UpdateBTCBlance` error
aborts the loop.  Also returns the `(address, value)` pairs for which an
update was performed, so callers can record balance-write events. -/
def UpdateBTCBlanceByVoutGo (st : Store) (value : ℚ) (OperateType : String) :
    List String → Except String (Store × List (String × ℚ))
  | [] => .ok (st, [])
  | address :: rest =>
    match FindBalanceWithAddressOrInitWithAmount st address value with
    | (some balancdID, btcbalance) =>
      match UpdateBTCBlance st OperateType balancdID btcbalance value with
      | .error e => .error e
      | .ok st1 =>
        match UpdateBTCBlanceByVoutGo st1 value OperateType rest with
        | .error e => .error e
        | .ok (st2, applied) => .ok (st2, (address, value) :: applied)
    | (none, _) => UpdateBTCBlanceByVoutGo st value OperateType rest

/-- `UpdateBTCBlanceByVout` proper, iterating `vout.Addresses`. -/
def UpdateBTCBlanceByVout (st : Store) (vout : VoutStream)
    (OperateType : String) : Except String (Store × List (String × ℚ)) :=
  UpdateBTCBlanceByVoutGo st vout.Value OperateType vout.Addresses

/-- The coinbase test used by both `BTCSyncTx` and the rollback loop:
`len(tx.Vin) == 1 && len(tx.Vin[0].Coinbase) != 0 && len(tx.Vin[0].Txid) == 0`. -/
def isCoinbaseTx (tx : Tx) : Bool :=
  match tx.Vin with
  | [v] => v.Coinbase ≠ "" ∧ v.Txid = ""
  | _ => false

/-- Modelled from the spec: `BTCVoutAddress` (declared in a repository
file not under `src/`) derives the payee address set of an output; a
script yielding no addresses is an error, which the sync loop turns into
a logged skip (§4.4 step 2). -/
def BTCVoutAddress (vout : TxVout) : Option (List String) :=
  if vout.Addresses = [] then none else some vout.Addresses

/-- Modelled from the spec: `BTCVoutStream` (declared in a repository
file not under `src/`) builds the UnspentOutput document for an output:
owning txid, value, output index, coinbase flag derived from the owning
transaction's inputs, payee addresses, and a null `used` object (§3
lifecycle: created unspent). -/
def BTCVoutStream (vout : TxVout) (vins : List Vin) (txid : String) :
    VoutStream :=
  { TxIDBelongTo := txid
    Value := vout.Value
    VoutIndex := vout.N
    Coinbase := isCoinbaseTx ⟨txid, 0, vins, []⟩
    Addresses := vout.Addresses
    Used := none }

/-- Modelled from the spec: `BTCTxStream` (declared in a repository file
not under `src/`) builds the IndexedTransaction document (§3). -/
def BTCTxStream (txid blockHash : String) (fee : ℚ) (time : Int)
    (vins vouts : List AddressWithValueInTx) : TxStream :=
  ⟨txid, blockHash, fee, time, vins, vouts⟩

/-- The inputs phase of `BTCSyncTx` for one transaction, processing the
vins in order and accumulating running input total, `txStreamVins`
summary entries and the balance-write events.  A failed vout lookup skips
the vin; a found vout is recorded, marked used, and its addresses are
debited — a debit error is the `log.Fatalln` path, surfaced here as
`.error`. -/
def BTCSyncTxVins (st : Store) (txid : String) :
    List Vin → Except String (Store × ℚ × List AddressWithValueInTx × List Event)
  | [] => .ok (st, 0, [], [])
  | vin :: rest =>
    match FindVoutByVoutIndexAndBelongTxID st vin.Txid vin.Vout with
    | none => BTCSyncTxVins st txid rest
    | some found =>
      let voutAsVin := found.doc
      let entry : AddressWithValueInTx :=
        ⟨voutAsVin.Addresses.headD "", voutAsVin.Value⟩
      let st1 := UpdateVoutUsedField st found.id txid vin
      match UpdateBTCBlanceByVout st1 voutAsVin "sub" with
      | .error e => .error e
      | .ok (st2, applied) =>
        match BTCSyncTxVins st2 txid rest with
        | .error e => .error e
        | .ok (st3, vinAmount, entries, evs) =>
          .ok (st3, voutAsVin.Value + vinAmount, entry :: entries,
            (applied.map fun p => Event.mk txid p.1 .debit p.2) ++ evs)

/-- The balance-credit loop of `BTCSyncTx`'s outputs phase: for every
payee address, find its balance; a miss inserts a freshly initialized
balance document, a hit is credited through `UpdateBTCBlance` — a credit
error is the `log.Fatalf` path, surfaced here as `.error`. -/
def BTCSyncTxCredits (st : Store) (txid : String) (value : ℚ) :
    List String → Except String (Store × List Event)
  | [] => .ok (st, [])
  | address :: rest =>
    match FindBalanceWithAddressOrInitWithAmount st address value with
    | (none, btcbalance) =>
      match BTCSyncTxCredits (indexBalance st btcbalance) txid value rest with
      | .error e => .error e
      | .ok (st2, evs) => .ok (st2, Event.mk txid address .created value :: evs)
    | (some balancdID, btcbalance) =>
      match UpdateBTCBlance st "add" balancdID btcbalance value with
      | .error e => .error e
      | .ok st1 =>
        match BTCSyncTxCredits st1 txid value rest with
        | .error e => .error e
        | .ok (st2, evs) => .ok (st2, Event.mk txid address .credit value :: evs)

/-- The outputs phase of `BTCSyncTx` for one transaction: an output whose
address derivation fails is skipped; otherwise its summary entry is
recorded, the running output total grows, the UnspentOutput document is
inserted, and every payee address is credited. -/
def BTCSyncTxVouts (st : Store) (tx : Tx) :
    List TxVout → Except String (Store × ℚ × List AddressWithValueInTx × List Event)
  | [] => .ok (st, 0, [], [])
  | vout :: rest =>
    match BTCVoutAddress vout with
    | none => BTCSyncTxVouts st tx rest
    | some addresses =>
      let entry : AddressWithValueInTx := ⟨addresses.headD "", vout.Value⟩
      let st1 := indexVout st (BTCVoutStream vout tx.Vin tx.Txid)
      match BTCSyncTxCredits st1 tx.Txid vout.Value addresses with
      | .error e => .error e
      | .ok (st2, evs1) =>
        match BTCSyncTxVouts st2 tx rest with
        | .error e => .error e
        | .ok (st3, voutAmount, entries, evs2) =>
          .ok (st3, vout.Value + voutAmount, entry :: entries, evs1 ++ evs2)

/-- One transaction of `BTCSyncTx`: inputs phase, then outputs phase,
then the fee (`vinAmount - voutAmount`, forced to zero for a coinbase
transaction), then the IndexedTransaction insert. -/
def BTCSyncTxOne (st : Store) (blockHash : String) (tx : Tx) :
    Except String (Store × List Event) :=
  match BTCSyncTxVins st tx.Txid tx.Vin with
  | .error e => .error e
  | .ok (st1, vinAmount, txStreamVins, evs1) =>
    match BTCSyncTxVouts st1 tx tx.Vout with
    | .error e => .error e
    | .ok (st2, voutAmount, txStreamVouts, evs2) =>
      let fee := if isCoinbaseTx tx then 0 else vinAmount - voutAmount
      let txstreaParams :=
        BTCTxStream tx.Txid blockHash fee tx.Time txStreamVins txStreamVouts
      .ok (indexTx st2 txstreaParams, evs1 ++ evs2)

/-- The transaction fold of `BTCSyncTx`, in block order. -/
def BTCSyncTxGo (st : Store) (blockHash : String) :
    List Tx → Except String (Store × List Event)
  | [] => .ok (st, [])
  | tx :: rest =>
    match BTCSyncTxOne st blockHash tx with
    | .error e => .error e
    | .ok (st1, evs1) =>
      match BTCSyncTxGo st1 blockHash rest with
      | .error e => .error e
      | .ok (st2, evs2) => .ok (st2, evs1 ++ evs2)

/-- `BTCSyncTx`: sync one block's transactions.  The `frm`/`height`
parameters are taken (as in the Go signature) but unused.  `.error` is
the `log.Fatal` termination of the process. -/
def BTCSyncTx (st : Store) (frm height : Int) (block : Block) :
    Except String (Store × List Event) :=
  let _ := frm
  let _ := height
  BTCSyncTxGo st block.Hash block.Tx

/-- The input-clearing loop of the rollback engine for one transaction:
every vin is skipped when the transaction is coinbase; otherwise the
spent vout is located by its `used` object — a miss is printed and
skipped — and on a hit the `used` object is cleared and the payee
balances are credited back (the Go code ignores
`UpdateBTCBlanceByVout`'s return value here). -/
def rollbackTxVins (st : Store) (tx : Tx) : List Vin → Store
  | [] => st
  | vin :: rest =>
    if isCoinbaseTx tx then rollbackTxVins st tx rest
    else
      match FindVoutByUsedFieldAndBelongTxID st vin tx.Txid with
      | none => rollbackTxVins st tx rest
      | some found =>
        let st1 := { st with vouts := upsertVoutUsed st.vouts found.id none }
        let st2 :=
          match UpdateBTCBlanceByVout st1 found.doc "add" with
          | .ok (s, _) => s
          | .error _ => st1
        rollbackTxVins st2 tx rest

/-- The output-deletion loop of the rollback engine for one transaction:
locate each created vout by `(txid, N)` — a miss is printed and skipped —
delete it, and debit the payee balances (again, the returned error is
ignored by the caller). -/
def rollbackTxVouts (st : Store) (tx : Tx) : List TxVout → Store
  | [] => st
  | vout :: rest =>
    match FindVoutByVoutIndexAndBelongTxID st tx.Txid vout.N with
    | none => rollbackTxVouts st tx rest
    | some found =>
      let st1 := deleteVout st found.id
      let st2 :=
        match UpdateBTCBlanceByVout st1 found.doc "sub" with
        | .ok (s, _) => s
        | .error _ => st1
      rollbackTxVouts st2 tx rest

/-- The transaction fold of the rollback engine. -/
def rollbackTxs (st : Store) : List Tx → Store
  | [] => st
  | tx :: rest =>
    rollbackTxs (rollbackTxVouts (rollbackTxVins st tx tx.Vin) tx tx.Vout) rest

/-- `RollbackTxVoutBalanceTypeByBlockHeight`: fetch the archived block —
a miss is returned as a hard error — delete its IndexedTransaction
records by block hash (modelled as always succeeding), then run the
input-clearing and output-deletion loops over every transaction.  The
returned `Option String` is the function's error result; the `Store`
carries whatever effects happened before the return. -/
def RollbackTxVoutBalanceTypeByBlockHeight (st : Store) (height : Int) :
    Store × Option String :=
  match FindBTCBlockByHeight st height with
  | none => (st, some "block not fount in es when update txstream")
  | some NewBlock =>
    let st1 := DeleteTxstreamByBlockHash st NewBlock.Hash
    (rollbackTxs st1 NewBlock.Tx, none)

/-- The observable steps of one driver-level unit of work
(`BTCRollBackAndSyncTx`).  `flush` stands for an executed flush request;
the driver never performs one (see `BTCRollBackAndSyncTx`), so the
constructor exists to state that no trace contains it. -/
inductive DriverAction where
  | rollback (height : Int)
  | sync (height : Int)
  | syncFatal (height : Int)
  | flush
  | signal
  deriving Repr, DecidableEq

/-- Two's-complement `int32` addition, as Go evaluates `from + 5`. -/
def int32add (a b : Int) : Int :=
  (a + b + 2 ^ 31) % 2 ^ 32 - 2 ^ 31

/-- `BTCRollBackAndSyncTx`: when `height < from + 5` (int32 arithmetic)
roll the height back (the returned error is ignored); then sync the
block; then send `true` on the completion channel.  The `client.Flush()`
between sync and signal is written without `.Do(ctx)`: it only constructs
an `IndicesFlushService` and issues no flush request, so it performs no
step and the trace records none.  A fatal sync (`log.Fatal`) ends the
process before the signal.  Returns the final store together with the
ordered list of performed steps. -/
def BTCRollBackAndSyncTx (frm height : Int) (block : Block) (st : Store) :
    Store × List DriverAction :=
  let (st1, acts1) :=
    if height < int32add frm 5 then
      ((RollbackTxVoutBalanceTypeByBlockHeight st height).1,
        [DriverAction.rollback height])
    else (st, [])
  match BTCSyncTx st1 frm height block with
  | .error _ => (st1, acts1 ++ [.syncFatal height])
  | .ok (st2, _) =>
    (st2, acts1 ++ [.sync height, .signal])

/-- The store produced by a successful `BTCSyncTx` run (the identity when
sync dies fatally), used to phrase end-to-end statements. -/
def syncStore (st : Store) (frm height : Int) (block : Block) : Store :=
  match BTCSyncTx st frm height block with
  | .ok (s, _) => s
  | .error _ => st

/-- The balance-write events of a successful `BTCSyncTx` run. -/
def syncEvents (st : Store) (frm height : Int) (block : Block) : List Event :=
  match BTCSyncTx st frm height block with
  | .ok (_, e) => e
  | .error _ => []

/-! ### Specification-side definitions

Abstract descriptions of the effects, written from the spec's vocabulary,
against which the code-derived functions above are compared. -/

/-- One balance delta exactly as the indexes apply it: find the first
balance document for the address and rewrite the amounts of the documents
sharing its id; a missing address is a no-op. -/
def upd1 (bs : List BalanceDoc) (a : String) (v : ℚ) : List BalanceDoc :=
  match bs.find? fun d => d.doc.Address = a with
  | none => bs
  | some d =>
    bs.map fun e =>
      if e.id = d.id then ⟨e.id, ⟨e.doc.Address, d.doc.Amount + v⟩⟩ else e

/-- Apply a sequence of `(address, signed value)` balance deltas. -/
def applyPairs (bs : List BalanceDoc) (ps : List (String × ℚ)) :
    List BalanceDoc :=
  ps.foldl (fun acc p => upd1 acc p.1 p.2) bs

/-- Negate a delta sequence (the rollback direction). -/
def negPairs (ps : List (String × ℚ)) : List (String × ℚ) :=
  ps.map fun p => (p.1, -p.2)

/-- The balance credits one indexed output produces, in address order. -/
def creditsOfVout (v : TxVout) : List (String × ℚ) :=
  match BTCVoutAddress v with
  | none => []
  | some addresses => addresses.map fun a => (a, v.Value)

/-- The balance credits one transaction's outputs phase produces. -/
def creditsOfTx (t : Tx) : List (String × ℚ) :=
  (t.Vout.map creditsOfVout).flatten

/-- The balance credits syncing a transaction list produces. -/
def blockCredits (ts : List Tx) : List (String × ℚ) :=
  (ts.map creditsOfTx).flatten

/-- The UnspentOutput documents (without ids) one transaction's outputs
phase creates: one per output whose address derivation succeeds. -/
def txDocsData (t : Tx) : List VoutStream :=
  t.Vout.filterMap fun v =>
    match BTCVoutAddress v with
    | none => none
    | some _ => some (BTCVoutStream v t.Vin t.Txid)

/-- Sum of the values of a transaction's referenced inputs that resolve
against the store's UnspentOutput index. -/
def vinFoundSum (st : Store) (vins : List Vin) : ℚ :=
  (vins.filterMap fun vin =>
    (FindVoutByVoutIndexAndBelongTxID st vin.Txid vin.Vout).map
      fun d => d.doc.Value).sum

/-- Sum of the values of a transaction's outputs that get indexed (those
whose address derivation succeeds). -/
def voutIndexedSum (vouts : List TxVout) : ℚ :=
  (vouts.filterMap fun v => (BTCVoutAddress v).map fun _ => v.Value).sum

/-- Store well-formedness: every stored vout id is below the id counter,
so store-generated ids are fresh. -/
def voutIdsBounded (st : Store) : Prop :=
  ∀ d ∈ st.vouts, d.id < st.nextId

/-- Store well-formedness: balance document ids are pairwise distinct. -/
def balanceIdsNodup (st : Store) : Prop :=
  (st.balances.map fun d => d.id).Nodup

/-- No input of the block resolves anywhere: its referenced txid matches
no stored vout's owner and no transaction of the block.  Together these
make every vin lookup fail during sync and every used-object lookup fail
during rollback. -/
def blockVinsUnresolvable (st : Store) (b : Block) : Prop :=
  ∀ tx ∈ b.Tx, ∀ vin ∈ tx.Vin,
    (∀ d ∈ st.vouts, d.doc.TxIDBelongTo ≠ vin.Txid) ∧
    ∀ tx2 ∈ b.Tx, tx2.Txid ≠ vin.Txid

/-- Every output of the block carries at least one payee address, so
every output is indexed. -/
def blockVoutsIndexed (b : Block) : Prop :=
  ∀ tx ∈ b.Tx, ∀ v ∈ tx.Vout, v.Addresses ≠ []

/-- The `(belongsToTxid, outputIndex)` keys of the block's outputs. -/
def blockKeys (b : Block) : List (String × Nat) :=
  (b.Tx.map fun t => t.Vout.map fun v => (t.Txid, v.N)).flatten

/-- The block's output keys are pairwise distinct and absent from the
pre-sync UnspentOutput index. -/
def blockKeysFresh (st : Store) (b : Block) : Prop :=
  (blockKeys b).Nodup ∧
  ∀ d ∈ st.vouts, (d.doc.TxIDBelongTo, d.doc.VoutIndex) ∉ blockKeys b

/-- Every payee address of the block already has a balance document. -/
def blockAddressesPresent (st : Store) (b : Block) : Prop :=
  ∀ tx ∈ b.Tx, ∀ v ∈ tx.Vout, ∀ a ∈ v.Addresses,
    ∃ d ∈ st.balances, d.doc.Address = a

/-- Number of UnspentOutput documents stored under one
`(belongsToTxid, outputIndex)` key. -/
def voutKeyCount (st : Store) (txid : String) (n : Nat) : Nat :=
  st.vouts.countP fun d =>
    decide (d.doc.TxIDBelongTo = txid ∧ d.doc.VoutIndex = n)

/-! ### Concrete inputs for counterexamples and witnesses -/

/-- A coinbase transaction paying 50 to address `A`. -/
def cbTxA : Tx := ⟨"t1", 0, [⟨"", 0, "cb"⟩], [⟨50, 0, ["A"]⟩]⟩

/-- A transaction spending `(t1, 0)` and paying 50 to address `B`. -/
def spendTxB : Tx := ⟨"t2", 0, [⟨"t1", 0, ""⟩], [⟨50, 0, ["B"]⟩]⟩

/-- A block whose only spend consumes an output created inside the block. -/
def c1Block : Block := ⟨"h", 7, [cbTxA, spendTxB]⟩

/-- Pre-sync store: `c1Block` archived at height 7; empty indexes. -/
def c1Store : Store := ⟨[⟨7, c1Block⟩], [], [], [], 0, false⟩

/-- A coinbase-only block paying 50 to the already-tracked address `A`. -/
def w1Block : Block := ⟨"hw", 5, [cbTxA]⟩

/-- Pre-sync store for the inverse-law witness: `w1Block` archived at
height 5, one balance document for `A`. -/
def w1Store : Store :=
  ⟨[⟨5, w1Block⟩], [], [], [⟨0, ⟨"A", 7⟩⟩], 1, false⟩

/-- A transaction whose only input references the absent output
`(tx, 0)`; used to exercise a rollback location failure. -/
def c2TxA : Tx := ⟨"ta", 0, [⟨"tx", 0, ""⟩], []⟩

/-- A transaction with one output to `b`, whose UnspentOutput document is
present, so its rollback deletion succeeds. -/
def c2TxB : Tx := ⟨"tb", 0, [], [⟨5, 0, ["b"]⟩]⟩

/-- Block at height 7 containing the failing transaction first. -/
def c2Block : Block := ⟨"hh", 7, [c2TxA, c2TxB]⟩

/-- Store for the rollback error counterexample: the block is archived,
`c2TxB`'s output document exists, `c2TxA`'s referenced vout does not. -/
def c2Store : Store :=
  ⟨[⟨7, c2Block⟩], [], [⟨9, ⟨"tb", 5, 0, false, ["b"], none⟩⟩], [], 10, false⟩

/-- A transaction spending the stored output `(t0, 0)`. -/
def c3Tx : Tx := ⟨"t1", 0, [⟨"t0", 0, ""⟩], []⟩

/-- Single-transaction block for the balance-write failure run. -/
def c3Block : Block := ⟨"h3", 3, [c3Tx]⟩

/-- Store whose balance writes fail: the spent vout and the balance
document for its address `a` both exist. -/
def c3Store : Store :=
  ⟨[⟨3, c3Block⟩], [], [⟨0, ⟨"t0", 5, 0, false, ["a"], none⟩⟩],
    [⟨1, ⟨"a", 5⟩⟩], 2, true⟩

/-- A sample UnspentOutput document for the duplicate-create theorems. -/
def c7Vout : VoutStream := ⟨"t", 5, 0, false, ["a"], none⟩

/-- An empty store with no failure injection. -/
def emptyStore : Store := ⟨[], [], [], [], 0, false⟩

/-- A block with no transactions, for driver-level witnesses. -/
def emptyBlock : Block := ⟨"he", 0, []⟩

/-- Store for the missing-balance no-op witness: one balance document for
an unrelated address `Z`. -/
def c10Store : Store := ⟨[], [], [], [⟨0, ⟨"Z", 1⟩⟩], 1, false⟩

/-- A vout whose sole payee `a` has no balance document in `c10Store`. -/
def c10Vout : VoutStream := ⟨"t", 5, 0, false, ["a"], none⟩

/-- The lookup-relevant projection of a stored vout: owner txid, output
index, value, payee addresses — everything the sync engine reads from it
apart from the `used` object. -/
def projKVA (d : VoutDoc) : String × Nat × ℚ × List String :=
  (d.doc.TxIDBelongTo, d.doc.VoutIndex, d.doc.Value, d.doc.Addresses)

/-- The lookup-relevant projections of the whole UnspentOutput index. -/
def voutsKVA (st : Store) : List (String × Nat × ℚ × List String) :=
  st.vouts.map projKVA

/-- The projections of the UnspentOutput documents that syncing the given
outputs creates (one per output whose address derivation succeeds). -/
def kvaOfVouts (txid : String) (vouts : List TxVout) :
    List (String × Nat × ℚ × List String) :=
  vouts.filterMap fun v =>
    match BTCVoutAddress v with
    | none => none
    | some _ => some (txid, v.N, v.Value, v.Addresses)

/-- First projected entry under a `(belongsToTxid, outputIndex)` key. -/
def findKVA (l : List (String × Nat × ℚ × List String)) (t : String)
    (n : Nat) : Option (String × Nat × ℚ × List String) :=
  l.find? fun e => e.1 = t ∧ e.2.1 = n

/-- The address owns a balance document. -/
def balanceHas (st : Store) (a : String) : Prop :=
  ∃ d ∈ st.balances, d.doc.Address = a

/-- The address owns a document in a balance list. -/
def listHas (bs : List BalanceDoc) (a : String) : Prop :=
  ∃ d ∈ bs, d.doc.Address = a

/-- Rewrite the amount of every balance document carrying the given id
(the present-branch of the upsert). -/
def setA (bs : List BalanceDoc) (i : Nat) (amt : ℚ) : List BalanceDoc :=
  bs.map fun e => if e.id = i then ⟨e.id, ⟨e.doc.Address, amt⟩⟩ else e

/-- The id/address skeleton of a balance document, which every balance
delta leaves untouched. -/
def shapeProj (d : BalanceDoc) : Nat × String :=
  (d.id, d.doc.Address)

/-- The UnspentOutput documents (with their store-assigned ids) that the
outputs phase creates from `startId` for one transaction, one per output
whose address derivation succeeds. -/
def mkVoutDocs (startId : Nat) (tx : Tx) : List TxVout → List VoutDoc
  | [] => []
  | v :: rest =>
    match BTCVoutAddress v with
    | none => mkVoutDocs startId tx rest
    | some _ => ⟨startId, BTCVoutStream v tx.Vin tx.Txid⟩ ::
        mkVoutDocs (startId + 1) tx rest

/-- Number of outputs that get indexed (consume a store id). -/
def countIndexed : List TxVout → Nat
  | [] => 0
  | v :: rest =>
    (match BTCVoutAddress v with | none => 0 | some _ => 1) + countIndexed rest

/-- The UnspentOutput documents a whole transaction list creates,
threading the id counter (each transaction also consumes one id for its
IndexedTransaction document). -/
def mkBlockDocs (startId : Nat) : List Tx → List VoutDoc
  | [] => []
  | t :: rest =>
    mkVoutDocs startId t t.Vout ++
      mkBlockDocs (startId + countIndexed t.Vout + 1) rest

/-- The balance credits a list of outputs produces. -/
def creditsOfVouts (vouts : List TxVout) : List (String × ℚ) :=
  (vouts.map creditsOfVout).flatten

/-- The `(belongsToTxid, outputIndex)` keys of a transaction list. -/
def listKeys (ts : List Tx) : List (String × Nat) :=
  (ts.map fun t => t.Vout.map fun v => (t.Txid, v.N)).flatten

/-! ### Basic lemmas -/

theorem UpdateBTCBlance_add (st : Store) (id : Nat) (b : BTCBalance) (amt : ℚ) :
    UpdateBTCBlance st "add" id b amt =
      .ok (writeBalanceAmount st id (b.Amount + amt)) := rfl

theorem UpdateBTCBlance_sub (st : Store) (id : Nat) (b : BTCBalance) (amt : ℚ) :
    UpdateBTCBlance st "sub" id b amt =
      .ok (writeBalanceAmount st id (b.Amount - amt)) := rfl

theorem UpdateBTCBlanceByVoutGo_isOk (op : String) (hop : op = "add" ∨ op = "sub")
    (v : ℚ) : ∀ (addrs : List String) (st : Store),
    ∃ p, UpdateBTCBlanceByVoutGo st v op addrs = .ok p := by
  intro addrs
  induction addrs with
  | nil => exact fun st => ⟨(st, []), rfl⟩
  | cons a rest ih =>
    intro st
    rw [UpdateBTCBlanceByVoutGo]
    cases hfind : FindBalanceWithAddressOrInitWithAmount st a v with
    | mk oid bal =>
      cases oid with
      | none => exact ih st
      | some i =>
        dsimp only
        rcases hop with hop | hop <;> subst hop
        · rw [UpdateBTCBlance_add]
          dsimp only
          obtain ⟨p, hp⟩ := ih (writeBalanceAmount st i (bal.Amount + v))
          rw [hp]
          exact ⟨_, rfl⟩
        · rw [UpdateBTCBlance_sub]
          dsimp only
          obtain ⟨p, hp⟩ := ih (writeBalanceAmount st i (bal.Amount - v))
          rw [hp]
          exact ⟨_, rfl⟩

theorem BTCSyncTxCredits_isOk (txid : String) (v : ℚ) :
    ∀ (addrs : List String) (st : Store),
    ∃ p, BTCSyncTxCredits st txid v addrs = .ok p := by
  intro addrs
  induction addrs with
  | nil => exact fun st => ⟨(st, []), rfl⟩
  | cons a rest ih =>
    intro st
    rw [BTCSyncTxCredits]
    cases hfind : FindBalanceWithAddressOrInitWithAmount st a v with
    | mk oid bal =>
      cases oid with
      | none =>
        dsimp only
        obtain ⟨p, hp⟩ := ih (indexBalance st bal)
        rw [hp]
        exact ⟨_, rfl⟩
      | some i =>
        dsimp only
        rw [UpdateBTCBlance_add]
        dsimp only
        obtain ⟨p, hp⟩ := ih (writeBalanceAmount st i (bal.Amount + v))
        rw [hp]
        exact ⟨_, rfl⟩

theorem BTCSyncTxVins_isOk (txid : String) : ∀ (vins : List Vin) (st : Store),
    ∃ p, BTCSyncTxVins st txid vins = .ok p := by
  intro vins
  induction vins with
  | nil => exact fun st => ⟨(st, 0, [], []), rfl⟩
  | cons vin rest ih =>
    intro st
    rw [BTCSyncTxVins]
    cases hfind : FindVoutByVoutIndexAndBelongTxID st vin.Txid vin.Vout with
    | none => exact ih st
    | some found =>
      dsimp only
      obtain ⟨⟨st2, applied⟩, hsub⟩ :=
        UpdateBTCBlanceByVoutGo_isOk "sub" (Or.inr rfl) found.doc.Value
          found.doc.Addresses (UpdateVoutUsedField st found.id txid vin)
      rw [show UpdateBTCBlanceByVout (UpdateVoutUsedField st found.id txid vin)
            found.doc "sub" = .ok (st2, applied) from hsub]
      dsimp only
      obtain ⟨p, hp⟩ := ih st2
      rw [hp]
      exact ⟨_, rfl⟩

theorem BTCSyncTxVouts_isOk (tx : Tx) : ∀ (vouts : List TxVout) (st : Store),
    ∃ p, BTCSyncTxVouts st tx vouts = .ok p := by
  intro vouts
  induction vouts with
  | nil => exact fun st => ⟨(st, 0, [], []), rfl⟩
  | cons vout rest ih =>
    intro st
    rw [BTCSyncTxVouts]
    cases haddr : BTCVoutAddress vout with
    | none => exact ih st
    | some addresses =>
      dsimp only
      obtain ⟨⟨st2, evs⟩, hcred⟩ :=
        BTCSyncTxCredits_isOk tx.Txid vout.Value addresses
          (indexVout st (BTCVoutStream vout tx.Vin tx.Txid))
      rw [hcred]
      dsimp only
      obtain ⟨p, hp⟩ := ih st2
      rw [hp]
      exact ⟨_, rfl⟩

theorem BTCSyncTxOne_isOk (st : Store) (blockHash : String) (tx : Tx) :
    ∃ p, BTCSyncTxOne st blockHash tx = .ok p := by
  rw [BTCSyncTxOne]
  obtain ⟨⟨st1, vinAmount, txStreamVins, evs1⟩, hvins⟩ :=
    BTCSyncTxVins_isOk tx.Txid tx.Vin st
  rw [hvins]
  dsimp only
  obtain ⟨⟨st2, voutAmount, txStreamVouts, evs2⟩, hvouts⟩ :=
    BTCSyncTxVouts_isOk tx tx.Vout st1
  rw [hvouts]
  exact ⟨_, rfl⟩

theorem BTCSyncTxGo_isOk (blockHash : String) : ∀ (ts : List Tx) (st : Store),
    ∃ p, BTCSyncTxGo st blockHash ts = .ok p := by
  intro ts
  induction ts with
  | nil => exact fun st => ⟨(st, []), rfl⟩
  | cons tx rest ih =>
    intro st
    rw [BTCSyncTxGo]
    obtain ⟨⟨st1, evs1⟩, hone⟩ := BTCSyncTxOne_isOk st blockHash tx
    rw [hone]
    dsimp only
    obtain ⟨⟨st2, evs2⟩, hgo⟩ := ih st1
    rw [hgo]
    exact ⟨_, rfl⟩

theorem BTCSyncTx_isOk (st : Store) (frm height : Int) (b : Block) :
    ∃ p, BTCSyncTx st frm height b = .ok p :=
  BTCSyncTxGo_isOk b.Hash b.Tx st

theorem int32add_five (a : Int) (hlo : 0 ≤ a) (hhi : a + 5 < 2 ^ 31) :
    int32add a 5 = a + 5 := by
  unfold int32add
  rw [Int.emod_eq_of_lt (by omega) (by omega)]
  omega

/-- The trace of one driver unit of work: an optional rollback step,
then sync and the completion signal (no flush step is ever performed). -/
theorem driver_trace (frm height : Int) (block : Block) (st : Store) :
    ∃ pre, (BTCRollBackAndSyncTx frm height block st).2 =
        pre ++ [DriverAction.sync height, DriverAction.signal] ∧
      (pre = [] ∨ pre = [DriverAction.rollback height]) ∧
      (DriverAction.rollback height ∈ pre ↔ height < int32add frm 5) := by
  unfold BTCRollBackAndSyncTx
  by_cases hc : height < int32add frm 5
  · rw [if_pos hc]
    dsimp only
    obtain ⟨⟨st2, ev⟩, hok⟩ := BTCSyncTx_isOk
      (RollbackTxVoutBalanceTypeByBlockHeight st height).1 frm height block
    rw [hok]
    exact ⟨[DriverAction.rollback height], rfl, Or.inr rfl, by simp [hc]⟩
  · rw [if_neg hc]
    dsimp only
    obtain ⟨⟨st2, ev⟩, hok⟩ := BTCSyncTx_isOk st frm height block
    rw [hok]
    exact ⟨[], rfl, Or.inl rfl, by simp [hc]⟩

/-! ### Claim theorems -/

/-- Claim C1, counterexample: `c1Block` spends only outputs created
inside itself (its one non-coinbase input references `t1`, a transaction
of the block), yet after `sync` then `rollback` the AddressBalance record
for `A` — touched by the sync — reads `-50` where pre-sync no record for
`A` existed (pre-sync balances were empty), and `B`'s record persists at
`0`.  The rollback of `t1`'s output deletes the spent vout before `t2`'s
input-clearing step can find it, so the compensating credit to `A` is
silently skipped. -/
theorem c1_counterexample :
    (∀ tx ∈ c1Block.Tx, ∀ vin ∈ tx.Vin,
      vin.Txid = "" ∨ ∃ tx2 ∈ c1Block.Tx, tx2.Txid = vin.Txid) ∧
    c1Store.balances = [] ∧
    (RollbackTxVoutBalanceTypeByBlockHeight (syncStore c1Store 0 7 c1Block) 7).1.balances =
      [⟨1, ⟨"A", -50⟩⟩, ⟨4, ⟨"B", 0⟩⟩] := by with_unfolding_all decide

/-- Claim C2, counterexample: in `c2Store` the first transaction's input
cannot be located during the input-clearing phase, yet
`RollbackTxVoutBalanceTypeByBlockHeight` returns no error and continues
with the remaining transaction (whose output document it deletes,
emptying the vout index). -/
theorem c2_counterexample :
    FindVoutByUsedFieldAndBelongTxID c2Store ⟨"tx", 0, ""⟩ "ta" = none ∧
    (RollbackTxVoutBalanceTypeByBlockHeight c2Store 7).2 = none ∧
    (RollbackTxVoutBalanceTypeByBlockHeight c2Store 7).1.vouts = [] := by
  with_unfolding_all decide

/-- Claim C2, amended: rollback returns a hard error exactly when the
block fetch fails (with transaction-record deletion modelled as
succeeding); a UnspentOutput that cannot be located during the
input-clearing or output-deletion phase is logged, skipped, and rollback
continues with the remaining transactions and reports success. -/
theorem c2_rollback_error_iff_block_missing (st : Store) (height : Int) :
    (RollbackTxVoutBalanceTypeByBlockHeight st height).2.isSome ↔
      FindBTCBlockByHeight st height = none := by
  unfold RollbackTxVoutBalanceTypeByBlockHeight
  cases h : FindBTCBlockByHeight st height <;> simp

/-- Claim C3, counterexample: in `c3Store` every balance-index write
fails (`updateBalanceFails`), and syncing `c3Block` performs a debit
attempt (the recorded event) for address `a`; yet `BTCSyncTx` completes
the whole block and returns success — the spent vout is marked used and
the transaction record is indexed while `a`'s balance silently stays at
`5` — instead of halting fatally. -/
theorem c3_counterexample :
    c3Store.updateBalanceFails = true ∧
    (BTCSyncTx c3Store 0 3 c3Block).toOption =
      some (⟨c3Store.blocks,
        [⟨2, ⟨"t1", "h3", 5, 0, [⟨"a", 5⟩], []⟩⟩],
        [⟨0, ⟨"t0", 5, 0, false, ["a"], some ⟨"t1", 0⟩⟩⟩],
        [⟨1, ⟨"a", 5⟩⟩], 3, true⟩,
        [⟨"t1", "a", .debit, 5⟩]) := by with_unfolding_all decide

/-- Claim C3, amended: a failed balance-index write never halts the
synchronization: `UpdateBTCBlance` swallows the store write failure and
reports success with the store unchanged, and `BTCSyncTx` always
completes with `.ok` — the fatal path fires only on an
`UpdateBTCBlance` error, which only an invalid operate type (never a
write failure) produces. -/
theorem c3_balance_write_failure_not_fatal :
    (∀ (st : Store) (frm height : Int) (b : Block),
      ∃ p, BTCSyncTx st frm height b = .ok p) ∧
    (∀ (st : Store) (id : Nat) (bal : BTCBalance) (amt : ℚ),
      st.updateBalanceFails = true →
        UpdateBTCBlance st "add" id bal amt = .ok st ∧
        UpdateBTCBlance st "sub" id bal amt = .ok st) := by
  refine ⟨BTCSyncTx_isOk, fun st id bal amt hfail => ⟨?_, ?_⟩⟩
  · rw [UpdateBTCBlance_add, writeBalanceAmount, if_pos hfail]
  · rw [UpdateBTCBlance_sub, writeBalanceAmount, if_pos hfail]

/-- Claim C3, witness for the amended theorem at a concrete input. -/
theorem c3_balance_write_failure_not_fatal_witness :
    (∃ p, BTCSyncTx c3Store 0 3 c3Block = .ok p) ∧
    c3Store.updateBalanceFails = true ∧
    UpdateBTCBlance c3Store "add" 9 ⟨"a", 5⟩ 1 = .ok c3Store ∧
    UpdateBTCBlance c3Store "sub" 9 ⟨"a", 5⟩ 1 = .ok c3Store :=
  ⟨c3_balance_write_failure_not_fatal.1 c3Store 0 3 c3Block, rfl,
    (c3_balance_write_failure_not_fatal.2 c3Store 9 ⟨"a", 5⟩ 1 rfl).1,
    (c3_balance_write_failure_not_fatal.2 c3Store 9 ⟨"a", 5⟩ 1 rfl).2⟩

/-- Claim C5: the driver rolls back exactly when `height < from + 5`
(for heights where the int32 sum does not overflow) and sync always runs
afterwards; with `from = 100`, rollback fires for heights 100–104 and not
for 105. -/
theorem c5_reorg_window (frm height : Int) (block : Block) (st : Store)
    (hlo : 0 ≤ frm) (hhi : frm + 5 < 2 ^ 31) :
    (DriverAction.rollback height ∈ (BTCRollBackAndSyncTx frm height block st).2 ↔
      height < frm + 5) ∧
    DriverAction.sync height ∈ (BTCRollBackAndSyncTx frm height block st).2 ∧
    (∀ h2 : Int, 100 ≤ h2 → h2 ≤ 104 →
      DriverAction.rollback h2 ∈ (BTCRollBackAndSyncTx 100 h2 block st).2) ∧
    DriverAction.rollback 105 ∉ (BTCRollBackAndSyncTx 100 105 block st).2 := by
  have key : ∀ (f h : Int), 0 ≤ f → f + 5 < 2 ^ 31 → ∀ s : Store,
      (DriverAction.rollback h ∈ (BTCRollBackAndSyncTx f h block s).2 ↔ h < f + 5) ∧
      DriverAction.sync h ∈ (BTCRollBackAndSyncTx f h block s).2 := by
    intro f h hf hf5 s
    obtain ⟨pre, htr, hpre, hmem⟩ := driver_trace f h block s
    rw [htr, int32add_five f hf hf5] at *
    constructor
    · rw [List.mem_append]
      constructor
      · rintro (hin | hin)
        · exact hmem.mp hin
        · simp at hin
      · intro hlt
        exact Or.inl (hmem.mpr hlt)
    · simp
  refine ⟨(key frm height hlo hhi st).1, (key frm height hlo hhi st).2,
    fun h2 hl hu => ?_, ?_⟩
  · exact (key 100 h2 (by norm_num) (by norm_num) st).1.mpr (by omega)
  · intro hmem
    exact absurd ((key 100 105 (by norm_num) (by norm_num) st).1.mp hmem) (by norm_num)

/-- Claim C5, witness at `from = 100`, `height = 104`. -/
theorem c5_reorg_window_witness :
    (0 ≤ (100 : Int)) ∧ ((100 : Int) + 5 < 2 ^ 31) ∧
    ((DriverAction.rollback 104 ∈
        (BTCRollBackAndSyncTx 100 104 emptyBlock emptyStore).2 ↔ (104 : Int) < 100 + 5) ∧
      DriverAction.sync 104 ∈ (BTCRollBackAndSyncTx 100 104 emptyBlock emptyStore).2 ∧
      (∀ h2 : Int, 100 ≤ h2 → h2 ≤ 104 →
        DriverAction.rollback h2 ∈ (BTCRollBackAndSyncTx 100 h2 emptyBlock emptyStore).2) ∧
      DriverAction.rollback 105 ∉ (BTCRollBackAndSyncTx 100 105 emptyBlock emptyStore).2) :=
  ⟨by norm_num, by norm_num,
    c5_reorg_window 100 104 emptyBlock emptyStore (by norm_num) (by norm_num)⟩

/-- Claim C6, divergence (code bug): the `client.Flush()` between sync
and the completion signal is missing its `.Do(ctx)`, so it only builds
the flush service and never issues a flush request.  Accordingly no
driver trace contains a flush step, while a successful run still emits
the completion signal — the signal is sent without any flush having
taken effect, contradicting the claimed ordering. -/
theorem c6_signal_without_flush :
    (∀ (frm height : Int) (block : Block) (st : Store),
      DriverAction.flush ∉ (BTCRollBackAndSyncTx frm height block st).2) ∧
    DriverAction.signal ∈ (BTCRollBackAndSyncTx 0 10 emptyBlock emptyStore).2 := by
  constructor
  · intro frm height block st
    obtain ⟨pre, htr, hpre, _⟩ := driver_trace frm height block st
    rw [htr]
    rcases hpre with hpre | hpre <;> subst hpre <;> simp
  · with_unfolding_all decide

/-- Claim C7, counterexample: creating the same UnspentOutput twice from
the empty store leaves two records for its `(belongsToTxid, outputIndex)`
key, not one — `client.Index()` is a bare insert under a fresh
store-assigned id, not an upsert by a derived id. -/
theorem c7_counterexample :
    voutKeyCount (indexVout (indexVout emptyStore c7Vout) c7Vout) "t" 0 = 2 := by
  with_unfolding_all decide

/-- Claim C7, amended: the create operation is a bare insert under a
store-generated id; each repetition adds one more UnspentOutput record
for the same `(belongsToTxid, outputIndex)` key, so a retried create
duplicates rather than upserts. -/
theorem c7_create_bare_insert (st : Store) (v : VoutStream) :
    voutKeyCount (indexVout st v) v.TxIDBelongTo v.VoutIndex =
      voutKeyCount st v.TxIDBelongTo v.VoutIndex + 1 ∧
    voutKeyCount (indexVout (indexVout st v) v) v.TxIDBelongTo v.VoutIndex =
      voutKeyCount st v.TxIDBelongTo v.VoutIndex + 2 := by
  have h1 : ∀ (s : Store),
      voutKeyCount (indexVout s v) v.TxIDBelongTo v.VoutIndex =
        voutKeyCount s v.TxIDBelongTo v.VoutIndex + 1 := by
    intro s
    simp [voutKeyCount, indexVout, List.countP_append, List.countP_cons]
  exact ⟨h1 st, by rw [h1 (indexVout st v), h1 st]⟩

theorem upsertVoutUsed_idem (vs : List VoutDoc) (id : Nat) (u : Option voutUsed) :
    upsertVoutUsed (upsertVoutUsed vs id u) id u = upsertVoutUsed vs id u := by
  unfold upsertVoutUsed
  by_cases h : (vs.any fun d => decide (d.id = id)) = true
  · rw [if_pos h]
    have hany : (((vs.map fun d =>
        if d.id = id then (⟨d.id, { d.doc with Used := u }⟩ : VoutDoc) else d).any
          fun d => decide (d.id = id)) = true) := by
      rw [List.any_eq_true] at h ⊢
      obtain ⟨d, hd, hid⟩ := h
      refine ⟨if d.id = id then ⟨d.id, { d.doc with Used := u }⟩ else d,
        List.mem_map_of_mem _ hd, ?_⟩
      simp only [decide_eq_true_eq] at hid
      simp [hid]
    rw [if_pos hany, List.map_map]
    refine List.map_congr_left fun d _ => ?_
    by_cases hd : d.id = id <;> simp [Function.comp, hd]
  · rw [if_neg h]
    have hne : ∀ d ∈ vs, d.id ≠ id := by
      intro d hd
      rw [List.any_eq_true] at h
      push_neg at h
      simpa using h d hd
    have hany : (((vs ++ [(⟨id, ⟨"", 0, 0, false, [], u⟩⟩ : VoutDoc)]).any
        fun d => decide (d.id = id)) = true) := by
      rw [List.any_eq_true]
      exact ⟨⟨id, ⟨"", 0, 0, false, [], u⟩⟩, by simp, by simp⟩
    rw [if_pos hany, List.map_append]
    have hmap : (vs.map fun d =>
        if d.id = id then (⟨d.id, { d.doc with Used := u }⟩ : VoutDoc) else d) = vs := by
      have h2 : (vs.map fun d =>
          if d.id = id then (⟨d.id, { d.doc with Used := u }⟩ : VoutDoc) else d) =
          vs.map (fun d => d) :=
        List.map_congr_left fun d hd => by simp [hne d hd]
      simpa using h2
    rw [hmap]
    simp

/-- Claim C8: the spend-marking update is idempotent — repeating
`UpdateVoutUsedField` with identical arguments leaves the store exactly
as after the first call — and it touches no balance record, so a retry
causes no second debit. -/
theorem c8_markspent_idempotent (st : Store) (id : Nat) (vinBelongTxid : String)
    (vin : Vin) :
    UpdateVoutUsedField (UpdateVoutUsedField st id vinBelongTxid vin) id
        vinBelongTxid vin =
      UpdateVoutUsedField st id vinBelongTxid vin ∧
    (UpdateVoutUsedField st id vinBelongTxid vin).balances = st.balances := by
  refine ⟨?_, rfl⟩
  dsimp only [UpdateVoutUsedField]
  rw [upsertVoutUsed_idem]

/-- Claim C10: applying a vout-driven balance delta for addresses that
have no AddressBalance record is a silent no-op — the store is returned
unchanged, no record is created, and the call reports success with no
performed update. -/
theorem c10_missing_balance_noop (st : Store) (vout : VoutStream)
    (OperateType : String)
    (h : ∀ a ∈ vout.Addresses, ∀ d ∈ st.balances, d.doc.Address ≠ a) :
    UpdateBTCBlanceByVout st vout OperateType = .ok (st, []) := by
  unfold UpdateBTCBlanceByVout
  have main : ∀ addrs : List String,
      (∀ a ∈ addrs, ∀ d ∈ st.balances, d.doc.Address ≠ a) →
      UpdateBTCBlanceByVoutGo st vout.Value OperateType addrs = .ok (st, []) := by
    intro addrs
    induction addrs with
    | nil => exact fun _ => rfl
    | cons a rest ih =>
      intro haddrs
      have hfind : (st.balances.find? fun d => decide (d.doc.Address = a)) = none := by
        rw [List.find?_eq_none]
        intro d hd
        simpa using haddrs a (by simp) d hd
      rw [UpdateBTCBlanceByVoutGo]
      rw [show FindBalanceWithAddressOrInitWithAmount st a vout.Value =
        (none, ⟨a, vout.Value⟩) from by
          unfold FindBalanceWithAddressOrInitWithAmount
          rw [hfind]]
      exact ih fun x hx d hd => haddrs x (by simp [hx]) d hd
  exact main vout.Addresses h

/-- Claim C10, witness: address `a` has no balance document in
`c10Store`, and the vout-driven debit is a successful no-op. -/
theorem c10_missing_balance_noop_witness :
    (∀ a ∈ c10Vout.Addresses, ∀ d ∈ c10Store.balances, d.doc.Address ≠ a) ∧
    UpdateBTCBlanceByVout c10Store c10Vout "sub" = .ok (c10Store, []) :=
  ⟨by decide, c10_missing_balance_noop c10Store c10Vout "sub" (by decide)⟩

/-! ### Characterization of the balance-index operations -/

theorem writeBalanceAmount_fields (st : Store) (id : Nat) (amt : ℚ) :
    (writeBalanceAmount st id amt).vouts = st.vouts ∧
    (writeBalanceAmount st id amt).txs = st.txs ∧
    (writeBalanceAmount st id amt).blocks = st.blocks ∧
    (writeBalanceAmount st id amt).nextId = st.nextId ∧
    (writeBalanceAmount st id amt).updateBalanceFails = st.updateBalanceFails := by
  unfold writeBalanceAmount
  by_cases h : st.updateBalanceFails <;> simp [h]

theorem balanceHas_upsertBalanceAmount (bs : List BalanceDoc) (id : Nat)
    (amt : ℚ) (a : String) (h : ∃ d ∈ bs, d.doc.Address = a) :
    ∃ d ∈ upsertBalanceAmount bs id amt, d.doc.Address = a := by
  unfold upsertBalanceAmount
  obtain ⟨d, hd, ha⟩ := h
  by_cases hany : (bs.any fun d => decide (d.id = id)) = true
  · rw [if_pos hany]
    refine ⟨if d.id = id then ⟨d.id, ⟨d.doc.Address, amt⟩⟩ else d,
      List.mem_map_of_mem _ hd, ?_⟩
    by_cases hid : d.id = id <;> simp [hid, ha]
  · rw [if_neg hany]
    exact ⟨d, List.mem_append_left _ hd, ha⟩

theorem balanceHas_writeBalanceAmount (st : Store) (id : Nat) (amt : ℚ)
    (a : String) (h : balanceHas st a) :
    balanceHas (writeBalanceAmount st id amt) a := by
  unfold writeBalanceAmount
  by_cases hf : st.updateBalanceFails
  · simpa [hf]
  · simp only [hf, if_false]
    exact balanceHas_upsertBalanceAmount st.balances id amt a h

theorem UpdateBTCBlance_spec (st : Store) (op : String) (id : Nat)
    (b : BTCBalance) (amt : ℚ) (st1 : Store)
    (h : UpdateBTCBlance st op id b amt = .ok st1) :
    st1.vouts = st.vouts ∧ st1.txs = st.txs ∧ st1.blocks = st.blocks ∧
    st1.nextId = st.nextId ∧ st1.updateBalanceFails = st.updateBalanceFails ∧
    ∀ a, balanceHas st a → balanceHas st1 a := by
  unfold UpdateBTCBlance at h
  split at h
  · injection h with h2
    subst h2
    obtain ⟨h1, h2, h3, h4, h5⟩ := writeBalanceAmount_fields st id (b.Amount + amt)
    exact ⟨h1, h2, h3, h4, h5, fun a => balanceHas_writeBalanceAmount st id _ a⟩
  · injection h with h2
    subst h2
    obtain ⟨h1, h2, h3, h4, h5⟩ := writeBalanceAmount_fields st id (b.Amount - amt)
    exact ⟨h1, h2, h3, h4, h5, fun a => balanceHas_writeBalanceAmount st id _ a⟩
  · exact Except.noConfusion h

theorem FindBalance_of_not_balanceHas (st : Store) (a : String) (amt : ℚ)
    (h : ¬ balanceHas st a) :
    FindBalanceWithAddressOrInitWithAmount st a amt = (none, ⟨a, amt⟩) := by
  unfold FindBalanceWithAddressOrInitWithAmount
  have hf : (st.balances.find? fun d => decide (d.doc.Address = a)) = none := by
    rw [List.find?_eq_none]
    intro d hd hda
    exact h ⟨d, hd, by simpa using hda⟩
  rw [hf]

theorem FindBalance_some_spec (st : Store) (a : String) (amt : ℚ) (id : Nat)
    (b : BTCBalance)
    (h : FindBalanceWithAddressOrInitWithAmount st a amt = (some id, b)) :
    ∃ d ∈ st.balances, d.id = id ∧ d.doc = b ∧ b.Address = a := by
  unfold FindBalanceWithAddressOrInitWithAmount at h
  cases hf : st.balances.find? fun d => decide (d.doc.Address = a) with
  | none => rw [hf] at h; exact absurd (congrArg Prod.fst h) (by simp)
  | some d =>
    rw [hf] at h
    have hmem := List.mem_of_find?_eq_some hf
    have haddr := List.find?_some hf
    simp only [decide_eq_true_eq] at haddr
    have h1 : d.id = id := by simpa using congrArg Prod.fst h
    have h2 : d.doc = b := by simpa using congrArg Prod.snd h
    exact ⟨d, hmem, h1, h2, h2 ▸ haddr⟩

theorem FindBalance_none_not_balanceHas (st : Store) (a : String) (amt : ℚ)
    (bal : BTCBalance)
    (h : FindBalanceWithAddressOrInitWithAmount st a amt = (none, bal)) :
    ¬ balanceHas st a := by
  unfold FindBalanceWithAddressOrInitWithAmount at h
  cases hf : st.balances.find? fun d => decide (d.doc.Address = a) with
  | some d => rw [hf] at h; exact absurd (congrArg Prod.fst h) (by simp)
  | none =>
    rintro ⟨d, hd, ha⟩
    rw [List.find?_eq_none] at hf
    exact hf d hd (by simp [ha])

theorem UpdateBTCBlanceByVoutGo_spec (v : ℚ) (op : String) :
    ∀ (addrs : List String) (st st2 : Store) (ap : List (String × ℚ)),
    UpdateBTCBlanceByVoutGo st v op addrs = .ok (st2, ap) →
      st2.vouts = st.vouts ∧ st2.txs = st.txs ∧ st2.blocks = st.blocks ∧
      st2.nextId = st.nextId ∧ st2.updateBalanceFails = st.updateBalanceFails ∧
      (∀ a, balanceHas st a → balanceHas st2 a) ∧
      (∀ a ∈ addrs, balanceHas st a → (a, v) ∈ ap) := by
  intro addrs
  induction addrs with
  | nil =>
    intro st st2 ap h
    rw [UpdateBTCBlanceByVoutGo] at h
    injection h with h2
    injection h2 with h3 h4
    subst h3; subst h4
    exact ⟨rfl, rfl, rfl, rfl, rfl, fun a ha => ha, by simp⟩
  | cons a rest ih =>
    intro st st2 ap h
    rw [UpdateBTCBlanceByVoutGo] at h
    cases hfind : FindBalanceWithAddressOrInitWithAmount st a v with
    | mk oid bal =>
      rw [hfind] at h
      cases oid with
      | none =>
        dsimp only at h
        obtain ⟨h1, h2, h3, h4, h5, h6, h7⟩ := ih st st2 ap h
        refine ⟨h1, h2, h3, h4, h5, h6, fun x hx hbx => ?_⟩
        rcases List.mem_cons.mp hx with hx | hx
        · subst hx
          exact absurd hbx (FindBalance_none_not_balanceHas st x v bal hfind)
        · exact h7 x hx hbx
      | some i =>
        dsimp only at h
        cases hu : UpdateBTCBlance st op i bal v with
        | error e => rw [hu] at h; exact Except.noConfusion h
        | ok st1 =>
          rw [hu] at h
          dsimp only at h
          cases hrec : UpdateBTCBlanceByVoutGo st1 v op rest with
          | error e => rw [hrec] at h; exact Except.noConfusion h
          | ok p =>
            obtain ⟨st2x, apx⟩ := p
            rw [hrec] at h
            injection h with h2
            injection h2 with h3 h4
            subst h3; subst h4
            obtain ⟨u1, u2, u3, u4, u5, u6⟩ := UpdateBTCBlance_spec st op i bal v st1 hu
            obtain ⟨g1, g2, g3, g4, g5, g6, g7⟩ := ih st1 st2x apx hrec
            refine ⟨g1.trans u1, g2.trans u2, g3.trans u3, g4.trans u4,
              g5.trans u5, fun x hx => g6 x (u6 x hx), fun x hx hbx => ?_⟩
            rcases List.mem_cons.mp hx with hx | hx
            · subst hx
              exact List.mem_cons_self _ _
            · exact List.mem_cons_of_mem _ (g7 x hx (u6 x hbx))

theorem indexBalance_fields (st : Store) (b : BTCBalance) :
    (indexBalance st b).vouts = st.vouts ∧ (indexBalance st b).txs = st.txs ∧
    (indexBalance st b).blocks = st.blocks ∧
    (indexBalance st b).updateBalanceFails = st.updateBalanceFails := by
  unfold indexBalance
  exact ⟨rfl, rfl, rfl, rfl⟩

theorem balanceHas_indexBalance (st : Store) (b : BTCBalance) (a : String)
    (h : balanceHas st a) : balanceHas (indexBalance st b) a := by
  obtain ⟨d, hd, ha⟩ := h
  exact ⟨d, List.mem_append_left _ hd, ha⟩

theorem BTCSyncTxCredits_spec (txid : String) (v : ℚ) :
    ∀ (addrs : List String) (st st2 : Store) (evs : List Event),
    BTCSyncTxCredits st txid v addrs = .ok (st2, evs) →
      st2.vouts = st.vouts ∧ st2.txs = st.txs ∧ st2.blocks = st.blocks ∧
      st2.updateBalanceFails = st.updateBalanceFails ∧
      (∀ a, balanceHas st a → balanceHas st2 a) ∧
      (∀ e ∈ evs, e.txid = txid) ∧
      (∀ a ∈ addrs, balanceHas st2 a ∧
        ∃ e ∈ evs, e.address = a ∧ (e.op = .credit ∨ e.op = .created) ∧
          e.value = v) := by
  intro addrs
  induction addrs with
  | nil =>
    intro st st2 evs h
    rw [BTCSyncTxCredits] at h
    injection h with h2
    injection h2 with h3 h4
    subst h3; subst h4
    exact ⟨rfl, rfl, rfl, rfl, fun a ha => ha, by simp, by simp⟩
  | cons a rest ih =>
    intro st st2 evs h
    rw [BTCSyncTxCredits] at h
    cases hfind : FindBalanceWithAddressOrInitWithAmount st a v with
    | mk oid bal =>
      rw [hfind] at h
      cases oid with
      | none =>
        dsimp only at h
        cases hrec : BTCSyncTxCredits (indexBalance st bal) txid v rest with
        | error e => rw [hrec] at h; exact Except.noConfusion h
        | ok p =>
          obtain ⟨st2x, evsx⟩ := p
          rw [hrec] at h
          injection h with h2
          injection h2 with h3 h4
          subst h3; subst h4
          obtain ⟨i1, i2, i3, i4⟩ := indexBalance_fields st bal
          obtain ⟨g1, g2, g3, g4, g5, g6, g7⟩ := ih (indexBalance st bal) st2x evsx hrec
          have hbal : bal = ⟨a, v⟩ := by
            rw [FindBalance_of_not_balanceHas st a v
              (FindBalance_none_not_balanceHas st a v bal hfind)] at hfind
            simpa using (congrArg Prod.snd hfind).symm
          have hhasa : balanceHas (indexBalance st bal) a := by
            subst hbal
            exact ⟨⟨st.nextId, ⟨a, v⟩⟩, List.mem_append_right _ (by simp [indexBalance]), rfl⟩
          refine ⟨g1.trans i1, g2.trans i2, g3.trans i3, g4.trans i4,
            fun x hx => g5 x (balanceHas_indexBalance st bal x hx),
            fun e he => ?_, fun x hx => ?_⟩
          · rcases List.mem_cons.mp he with he | he
            · subst he; rfl
            · exact g6 e he
          · rcases List.mem_cons.mp hx with hx | hx
            · subst hx
              exact ⟨g5 x hhasa, ⟨txid, x, .created, v⟩, List.mem_cons_self _ _,
                rfl, Or.inr rfl, rfl⟩
            · obtain ⟨hp, e, he, ha, hop, hv⟩ := g7 x hx
              exact ⟨hp, e, List.mem_cons_of_mem _ he, ha, hop, hv⟩
      | some i =>
        dsimp only at h
        rw [UpdateBTCBlance_add] at h
        dsimp only at h
        cases hrec : BTCSyncTxCredits (writeBalanceAmount st i (bal.Amount + v))
            txid v rest with
        | error e => rw [hrec] at h; exact Except.noConfusion h
        | ok p =>
          obtain ⟨st2x, evsx⟩ := p
          rw [hrec] at h
          injection h with h2
          injection h2 with h3 h4
          subst h3; subst h4
          obtain ⟨w1, w2, w3, w4, w5⟩ := writeBalanceAmount_fields st i (bal.Amount + v)
          obtain ⟨g1, g2, g3, g4, g5, g6, g7⟩ :=
            ih (writeBalanceAmount st i (bal.Amount + v)) st2x evsx hrec
          have hhasa : balanceHas st a := by
            obtain ⟨d, hd, _, hdoc, hba⟩ := FindBalance_some_spec st a v i bal hfind
            exact ⟨d, hd, by rw [hdoc]; exact hba⟩
          refine ⟨g1.trans w1, g2.trans w2, g3.trans w3, g4.trans w5,
            fun x hx => g5 x (balanceHas_writeBalanceAmount st i _ x hx),
            fun e he => ?_, fun x hx => ?_⟩
          · rcases List.mem_cons.mp he with he | he
            · subst he; rfl
            · exact g6 e he
          · rcases List.mem_cons.mp hx with hx | hx
            · subst hx
              exact ⟨g5 x (balanceHas_writeBalanceAmount st i _ x hhasa),
                ⟨txid, x, .credit, v⟩, List.mem_cons_self _ _, rfl, Or.inl rfl, rfl⟩
            · obtain ⟨hp, e, he, ha, hop, hv⟩ := g7 x hx
              exact ⟨hp, e, List.mem_cons_of_mem _ he, ha, hop, hv⟩

/-! ### Lookup stability: the inputs phase only rewrites `used` objects -/

theorem upsertVoutUsed_map_projKVA (vs : List VoutDoc) (id : Nat)
    (u : Option voutUsed) (h : ∃ d ∈ vs, d.id = id) :
    (upsertVoutUsed vs id u).map projKVA = vs.map projKVA := by
  unfold upsertVoutUsed
  rw [if_pos (by
    rw [List.any_eq_true]
    obtain ⟨d, hd, hid⟩ := h
    exact ⟨d, hd, by simp [hid]⟩)]
  rw [List.map_map]
  refine List.map_congr_left fun d _ => ?_
  by_cases hd : d.id = id <;> simp [Function.comp, projKVA, hd]

theorem FindVout_mem (st : Store) (t : String) (n : Nat) (d : VoutDoc)
    (h : FindVoutByVoutIndexAndBelongTxID st t n = some d) :
    d ∈ st.vouts ∧ d.doc.TxIDBelongTo = t ∧ d.doc.VoutIndex = n := by
  have hmem := List.mem_of_find?_eq_some h
  have hpred := List.find?_some h
  simp only [decide_eq_true_eq] at hpred
  exact ⟨hmem, hpred.1, hpred.2⟩

theorem FindVout_eq_findKVA (st : Store) (t : String) (n : Nat) :
    (FindVoutByVoutIndexAndBelongTxID st t n).map projKVA =
      findKVA (voutsKVA st) t n := by
  unfold FindVoutByVoutIndexAndBelongTxID findKVA voutsKVA
  rw [List.find?_map]
  rfl

theorem FindVout_congr_of_kva (st1 st : Store)
    (h : voutsKVA st1 = voutsKVA st) (t : String) (n : Nat) :
    (FindVoutByVoutIndexAndBelongTxID st1 t n).map projKVA =
      (FindVoutByVoutIndexAndBelongTxID st t n).map projKVA := by
  rw [FindVout_eq_findKVA, FindVout_eq_findKVA, h]

theorem FindVout_value_congr (st1 st : Store)
    (h : voutsKVA st1 = voutsKVA st) (t : String) (n : Nat) :
    (FindVoutByVoutIndexAndBelongTxID st1 t n).map (fun d => d.doc.Value) =
      (FindVoutByVoutIndexAndBelongTxID st t n).map fun d => d.doc.Value := by
  have h2 := congrArg (Option.map fun e : String × Nat × ℚ × List String => e.2.2.1)
    (FindVout_congr_of_kva st1 st h t n)
  simpa [Option.map_map, Function.comp, projKVA] using h2

theorem vinFoundSum_congr (st1 st : Store) (h : voutsKVA st1 = voutsKVA st)
    (l : List Vin) : vinFoundSum st1 l = vinFoundSum st l := by
  unfold vinFoundSum
  induction l with
  | nil => rfl
  | cons vin rest ih =>
    rw [List.filterMap_cons, List.filterMap_cons,
      FindVout_value_congr st1 st h vin.Txid vin.Vout]
    cases hf : (FindVoutByVoutIndexAndBelongTxID st vin.Txid vin.Vout).map
        fun d => d.doc.Value with
    | none => exact ih
    | some val => simpa using ih

theorem vinFoundSum_cons_some (st : Store) (vin : Vin) (rest : List Vin)
    (d : VoutDoc) (h : FindVoutByVoutIndexAndBelongTxID st vin.Txid vin.Vout = some d) :
    vinFoundSum st (vin :: rest) = d.doc.Value + vinFoundSum st rest := by
  unfold vinFoundSum
  rw [List.filterMap_cons, h]
  simp

theorem vinFoundSum_cons_none (st : Store) (vin : Vin) (rest : List Vin)
    (h : FindVoutByVoutIndexAndBelongTxID st vin.Txid vin.Vout = none) :
    vinFoundSum st (vin :: rest) = vinFoundSum st rest := by
  unfold vinFoundSum
  rw [List.filterMap_cons, h]
  rfl

theorem UpdateVoutUsedField_spec (st : Store) (d : VoutDoc) (txid : String)
    (vin : Vin) (hd : d ∈ st.vouts) :
    voutsKVA (UpdateVoutUsedField st d.id txid vin) = voutsKVA st ∧
    (UpdateVoutUsedField st d.id txid vin).txs = st.txs ∧
    (UpdateVoutUsedField st d.id txid vin).blocks = st.blocks ∧
    (UpdateVoutUsedField st d.id txid vin).nextId = st.nextId ∧
    (UpdateVoutUsedField st d.id txid vin).balances = st.balances ∧
    (UpdateVoutUsedField st d.id txid vin).updateBalanceFails =
      st.updateBalanceFails := by
  refine ⟨?_, rfl, rfl, rfl, rfl, rfl⟩
  show (upsertVoutUsed st.vouts d.id _).map projKVA = _
  exact upsertVoutUsed_map_projKVA st.vouts d.id _ ⟨d, hd, rfl⟩

theorem BTCSyncTxVins_spec (txid : String) :
    ∀ (vins : List Vin) (st st1 : Store) (amt : ℚ)
      (tsv : List AddressWithValueInTx) (ev : List Event),
    BTCSyncTxVins st txid vins = .ok (st1, amt, tsv, ev) →
      voutsKVA st1 = voutsKVA st ∧ st1.txs = st.txs ∧ st1.blocks = st.blocks ∧
      st1.nextId = st.nextId ∧ st1.updateBalanceFails = st.updateBalanceFails ∧
      (∀ a, balanceHas st a → balanceHas st1 a) ∧
      amt = vinFoundSum st vins ∧
      (∀ e ∈ ev, e.txid = txid ∧ e.op = .debit) ∧
      (∀ vin ∈ vins, ∀ d : VoutDoc,
        FindVoutByVoutIndexAndBelongTxID st vin.Txid vin.Vout = some d →
        ∀ X ∈ d.doc.Addresses, balanceHas st X →
          Event.mk txid X .debit d.doc.Value ∈ ev) := by
  intro vins
  induction vins with
  | nil =>
    intro st st1 amt tsv ev h
    rw [BTCSyncTxVins] at h
    injection h with h2
    injection h2 with h3 h4
    injection h4 with h5 h6
    injection h6 with h7 h8
    subst h3; subst h5; subst h7; subst h8
    exact ⟨rfl, rfl, rfl, rfl, rfl, fun a ha => ha, rfl, by simp, by simp⟩
  | cons vin rest ih =>
    intro st st1 amt tsv ev h
    rw [BTCSyncTxVins] at h
    cases hfind : FindVoutByVoutIndexAndBelongTxID st vin.Txid vin.Vout with
    | none =>
      rw [hfind] at h
      obtain ⟨g1, g2, g3, g4, g5, g6, g7, g8, g9⟩ := ih st st1 amt tsv ev h
      refine ⟨g1, g2, g3, g4, g5, g6, ?_, g8, fun v2 hv2 d hd => ?_⟩
      · rw [vinFoundSum_cons_none st vin rest hfind]
        exact g7
      · rcases List.mem_cons.mp hv2 with hv2 | hv2
        · subst hv2
          rw [hfind] at hd
          exact Option.noConfusion hd
        · exact g9 v2 hv2 d hd
    | some found =>
      rw [hfind] at h
      dsimp only at h
      obtain ⟨hmem, _, _⟩ := FindVout_mem st vin.Txid vin.Vout found hfind
      obtain ⟨m1, m2, m3, m4, m5, m6⟩ :=
        UpdateVoutUsedField_spec st found txid vin hmem
      cases hsub : UpdateBTCBlanceByVout (UpdateVoutUsedField st found.id txid vin)
          found.doc "sub" with
      | error e =>
        rw [show UpdateBTCBlanceByVout (UpdateVoutUsedField st found.id txid vin)
          found.doc "sub" = .error e from hsub] at h
        exact Except.noConfusion h
      | ok p =>
        obtain ⟨st2, applied⟩ := p
        rw [show UpdateBTCBlanceByVout (UpdateVoutUsedField st found.id txid vin)
          found.doc "sub" = .ok (st2, applied) from hsub] at h
        dsimp only at h
        cases hrec : BTCSyncTxVins st2 txid rest with
        | error e => rw [hrec] at h; exact Except.noConfusion h
        | ok q =>
          obtain ⟨st3, amt3, tsv3, ev3⟩ := q
          rw [hrec] at h
          injection h with h2
          injection h2 with h3 h4
          injection h4 with h5 h6
          injection h6 with h7 h8
          subst h3; subst h5; subst h7; subst h8
          obtain ⟨u1, u2, u3, u4, u5, u6, u7⟩ :=
            UpdateBTCBlanceByVoutGo_spec found.doc.Value "sub"
              found.doc.Addresses _ st2 applied hsub
          obtain ⟨g1, g2, g3, g4, g5, g6, g7, g8, g9⟩ := ih st2 st3 amt3 tsv3 ev3 hrec
          have hkva2 : voutsKVA st2 = voutsKVA st := by
            show st2.vouts.map projKVA = _
            rw [u1]
            exact m1
          have hpres : ∀ a, balanceHas st a → balanceHas st2 a := by
            intro a ha
            refine u6 a ?_
            show balanceHas (UpdateVoutUsedField st found.id txid vin) a
            unfold balanceHas
            rw [m5]
            exact ha
          refine ⟨g1.trans hkva2, g2.trans (u2.trans m2), g3.trans (u3.trans m3),
            g4.trans (u4.trans m4), g5.trans (u5.trans m6),
            fun a ha => g6 a (hpres a ha), ?_, ?_, ?_⟩
          · rw [vinFoundSum_cons_some st vin rest found hfind, g7,
              vinFoundSum_congr st2 st hkva2]
          · intro e he
            rcases List.mem_append.mp he with he | he
            · obtain ⟨pp, hpp, hpe⟩ := List.mem_map.mp he
              subst hpe
              exact ⟨rfl, rfl⟩
            · exact g8 e he
          · intro v2 hv2 d hd
            rcases List.mem_cons.mp hv2 with hv2 | hv2
            · rw [hv2] at hd
              rw [hfind] at hd
              injection hd with hd2
              subst hd2
              intro X hX hbX
              have hbX2 : balanceHas (UpdateVoutUsedField st found.id txid vin) X := by
                unfold balanceHas
                rw [m5]
                exact hbX
              have happ := u7 X hX hbX2
              exact List.mem_append_left _ (List.mem_map.mpr
                ⟨(X, found.doc.Value), happ, rfl⟩)
            · intro X hX hbX
              have hd2 : FindVoutByVoutIndexAndBelongTxID st2 v2.Txid v2.Vout =
                  some d ∨ ∃ d2 : VoutDoc,
                    FindVoutByVoutIndexAndBelongTxID st2 v2.Txid v2.Vout = some d2 ∧
                    projKVA d2 = projKVA d := by
                have hc := FindVout_congr_of_kva st2 st hkva2 v2.Txid v2.Vout
                rw [hd] at hc
                cases hf2 : FindVoutByVoutIndexAndBelongTxID st2 v2.Txid v2.Vout with
                | none => rw [hf2] at hc; exact absurd hc (by simp)
                | some d2 =>
                  rw [hf2] at hc
                  refine Or.inr ⟨d2, rfl, ?_⟩
                  simpa using hc
              rcases hd2 with hd2 | ⟨d2, hd2, hproj⟩
              · exact List.mem_append_right _
                  (g9 v2 hv2 d hd2 X hX (hpres X hbX))
              · have hXa : X ∈ d2.doc.Addresses := by
                  have : d2.doc.Addresses = d.doc.Addresses := by
                    have := congrArg (fun e : String × Nat × ℚ × List String => e.2.2.2) hproj
                    simpa [projKVA] using this
                  rw [this]
                  exact hX
                have hval : d2.doc.Value = d.doc.Value := by
                  have := congrArg (fun e : String × Nat × ℚ × List String => e.2.2.1) hproj
                  simpa [projKVA] using this
                have := g9 v2 hv2 d2 hd2 X hXa (hpres X hbX)
                rw [hval] at this
                exact List.mem_append_right _ this

/-! ### Characterization of the outputs phase -/

theorem indexVout_spec (st : Store) (vout : TxVout) (vins : List Vin)
    (txid : String) :
    voutsKVA (indexVout st (BTCVoutStream vout vins txid)) =
      voutsKVA st ++ [(txid, vout.N, vout.Value, vout.Addresses)] ∧
    (indexVout st (BTCVoutStream vout vins txid)).txs = st.txs ∧
    (indexVout st (BTCVoutStream vout vins txid)).blocks = st.blocks ∧
    (indexVout st (BTCVoutStream vout vins txid)).balances = st.balances ∧
    (indexVout st (BTCVoutStream vout vins txid)).updateBalanceFails =
      st.updateBalanceFails := by
  refine ⟨?_, rfl, rfl, rfl, rfl⟩
  show (st.vouts ++ [(⟨st.nextId, BTCVoutStream vout vins txid⟩ : VoutDoc)]).map projKVA = _
  rw [List.map_append]
  rfl

theorem kvaOfVouts_cons_none (txid : String) (v : TxVout) (rest : List TxVout)
    (h : BTCVoutAddress v = none) :
    kvaOfVouts txid (v :: rest) = kvaOfVouts txid rest := by
  unfold kvaOfVouts
  rw [List.filterMap_cons, h]

theorem kvaOfVouts_cons_some (txid : String) (v : TxVout) (rest : List TxVout)
    (addrs : List String) (h : BTCVoutAddress v = some addrs) :
    kvaOfVouts txid (v :: rest) =
      (txid, v.N, v.Value, v.Addresses) :: kvaOfVouts txid rest := by
  unfold kvaOfVouts
  rw [List.filterMap_cons, h]

theorem voutIndexedSum_cons_none (v : TxVout) (rest : List TxVout)
    (h : BTCVoutAddress v = none) :
    voutIndexedSum (v :: rest) = voutIndexedSum rest := by
  unfold voutIndexedSum
  rw [List.filterMap_cons, h]
  rfl

theorem voutIndexedSum_cons_some (v : TxVout) (rest : List TxVout)
    (addrs : List String) (h : BTCVoutAddress v = some addrs) :
    voutIndexedSum (v :: rest) = v.Value + voutIndexedSum rest := by
  unfold voutIndexedSum
  rw [List.filterMap_cons, h]
  simp

theorem BTCSyncTxVouts_spec (tx : Tx) :
    ∀ (vouts : List TxVout) (st st1 : Store) (amt : ℚ)
      (tsv : List AddressWithValueInTx) (ev : List Event),
    BTCSyncTxVouts st tx vouts = .ok (st1, amt, tsv, ev) →
      voutsKVA st1 = voutsKVA st ++ kvaOfVouts tx.Txid vouts ∧
      st1.txs = st.txs ∧ st1.blocks = st.blocks ∧
      st1.updateBalanceFails = st.updateBalanceFails ∧
      (∀ a, balanceHas st a → balanceHas st1 a) ∧
      amt = voutIndexedSum vouts ∧
      (∀ e ∈ ev, e.txid = tx.Txid) ∧
      (∀ v2 ∈ vouts, ∀ addrs, BTCVoutAddress v2 = some addrs → ∀ a ∈ addrs,
        balanceHas st1 a ∧ ∃ e ∈ ev, e.address = a ∧
          (e.op = .credit ∨ e.op = .created) ∧ e.value = v2.Value) := by
  intro vouts
  induction vouts with
  | nil =>
    intro st st1 amt tsv ev h
    rw [BTCSyncTxVouts] at h
    injection h with h2
    injection h2 with h3 h4
    injection h4 with h5 h6
    injection h6 with h7 h8
    subst h3; subst h5; subst h7; subst h8
    exact ⟨by simp [kvaOfVouts], rfl, rfl, rfl, fun a ha => ha, rfl, by simp, by simp⟩
  | cons vout rest ih =>
    intro st st1 amt tsv ev h
    rw [BTCSyncTxVouts] at h
    cases haddr : BTCVoutAddress vout with
    | none =>
      rw [haddr] at h
      obtain ⟨g1, g2, g3, g4, g5, g6, g7, g8⟩ := ih st st1 amt tsv ev h
      refine ⟨by rw [g1, kvaOfVouts_cons_none tx.Txid vout rest haddr], g2, g3, g4,
        g5, by rw [g6, voutIndexedSum_cons_none vout rest haddr], g7,
        fun v2 hv2 addrs ha2 => ?_⟩
      rcases List.mem_cons.mp hv2 with hv2 | hv2
      · rw [hv2] at ha2
        rw [haddr] at ha2
        exact Option.noConfusion ha2
      · exact g8 v2 hv2 addrs ha2
    | some addresses =>
      rw [haddr] at h
      dsimp only at h
      cases hcred : BTCSyncTxCredits (indexVout st (BTCVoutStream vout tx.Vin tx.Txid))
          tx.Txid vout.Value addresses with
      | error e => rw [hcred] at h; exact Except.noConfusion h
      | ok p =>
        obtain ⟨st2, evs1⟩ := p
        rw [hcred] at h
        dsimp only at h
        cases hrec : BTCSyncTxVouts st2 tx rest with
        | error e => rw [hrec] at h; exact Except.noConfusion h
        | ok q =>
          obtain ⟨st3, amt3, tsv3, ev3⟩ := q
          rw [hrec] at h
          injection h with h2
          injection h2 with h3 h4
          injection h4 with h5 h6
          injection h6 with h7 h8
          subst h3; subst h5; subst h7; subst h8
          obtain ⟨i1, i2, i3, i4, i5⟩ := indexVout_spec st vout tx.Vin tx.Txid
          obtain ⟨c1, c2, c3, c4, c5, c6, c7⟩ :=
            BTCSyncTxCredits_spec tx.Txid vout.Value addresses _ st2 evs1 hcred
          obtain ⟨g1, g2, g3, g4, g5, g6, g7, g8⟩ := ih st2 st3 amt3 tsv3 ev3 hrec
          have hkva2 : voutsKVA st2 =
              voutsKVA st ++ [(tx.Txid, vout.N, vout.Value, vout.Addresses)] := by
            show st2.vouts.map projKVA = _
            rw [c1]
            exact i1
          have hpres : ∀ a, balanceHas st a → balanceHas st2 a := by
            intro a ha
            refine c5 a ?_
            show balanceHas (indexVout st (BTCVoutStream vout tx.Vin tx.Txid)) a
            unfold balanceHas
            rw [i4]
            exact ha
          refine ⟨?_, g2.trans (c2.trans i2), g3.trans (c3.trans i3),
            g4.trans (c4.trans i5), fun a ha => g5 a (hpres a ha), ?_, ?_,
            fun v2 hv2 addrs ha2 => ?_⟩
          · rw [g1, hkva2, kvaOfVouts_cons_some tx.Txid vout rest addresses haddr]
            simp
          · rw [g6, voutIndexedSum_cons_some vout rest addresses haddr]
          · intro e he
            rcases List.mem_append.mp he with he | he
            · exact c6 e he
            · exact g7 e he
          · rcases List.mem_cons.mp hv2 with hv2 | hv2
            · subst hv2
              rw [haddr] at ha2
              injection ha2 with ha3
              subst ha3
              intro a ha
              obtain ⟨hhas, e, he, hea, heop, hev⟩ := c7 a ha
              exact ⟨g5 a hhas, e, List.mem_append_left _ he, hea, heop, hev⟩
            · intro a ha
              obtain ⟨hhas, e, he, hea, heop, hev⟩ := g8 v2 hv2 addrs ha2 a ha
              exact ⟨hhas, e, List.mem_append_right _ he, hea, heop, hev⟩

theorem BTCSyncTxOne_spec (st : Store) (blockHash : String) (tx : Tx)
    (st1 : Store) (ev : List Event)
    (h : BTCSyncTxOne st blockHash tx = .ok (st1, ev)) :
    voutsKVA st1 = voutsKVA st ++ kvaOfVouts tx.Txid tx.Vout ∧
    st1.blocks = st.blocks ∧
    st1.updateBalanceFails = st.updateBalanceFails ∧
    (∀ a, balanceHas st a → balanceHas st1 a) ∧
    (∀ e ∈ ev, e.txid = tx.Txid) ∧
    (∃ d : TxDoc, st1.txs = st.txs ++ [d] ∧
      d.doc.Fee = if isCoinbaseTx tx then 0
        else vinFoundSum st tx.Vin - voutIndexedSum tx.Vout) ∧
    (∀ v2 ∈ tx.Vout, ∀ addrs, BTCVoutAddress v2 = some addrs → ∀ a ∈ addrs,
      balanceHas st1 a ∧ ∃ e ∈ ev, e.address = a ∧
        (e.op = .credit ∨ e.op = .created) ∧ e.value = v2.Value) ∧
    (∀ vin ∈ tx.Vin, ∀ d : VoutDoc,
      FindVoutByVoutIndexAndBelongTxID st vin.Txid vin.Vout = some d →
      ∀ X ∈ d.doc.Addresses, balanceHas st X →
        Event.mk tx.Txid X .debit d.doc.Value ∈ ev) := by
  rw [BTCSyncTxOne] at h
  cases hvins : BTCSyncTxVins st tx.Txid tx.Vin with
  | error e => rw [hvins] at h; exact Except.noConfusion h
  | ok p =>
    obtain ⟨stA, vinAmount, txStreamVins, evs1⟩ := p
    rw [hvins] at h
    dsimp only at h
    cases hvouts : BTCSyncTxVouts stA tx tx.Vout with
    | error e => rw [hvouts] at h; exact Except.noConfusion h
    | ok q =>
      obtain ⟨st2, voutAmount, txStreamVouts, evs2⟩ := q
      rw [hvouts] at h
      dsimp only at h
      injection h with h2
      injection h2 with h3 h4
      subst h3; subst h4
      obtain ⟨a1, a2, a3, a4, a5, a6, a7, a8, a9⟩ :=
        BTCSyncTxVins_spec tx.Txid tx.Vin st stA vinAmount txStreamVins evs1 hvins
      obtain ⟨b1, b2, b3, b4, b5, b6, b7, b8⟩ :=
        BTCSyncTxVouts_spec tx tx.Vout stA st2 voutAmount txStreamVouts evs2 hvouts
      refine ⟨?_, b3.trans a3, b4.trans a5, ?_, ?_, ?_, ?_, ?_⟩
      · show voutsKVA st2 = _
        rw [b1, a1]
      · intro a ha
        show balanceHas st2 a
        exact b5 a (a6 a ha)
      · intro e he
        rcases List.mem_append.mp he with he | he
        · exact (a8 e he).1
        · exact b7 e he
      · refine ⟨⟨st2.nextId, BTCTxStream tx.Txid blockHash
          (if isCoinbaseTx tx then 0 else vinAmount - voutAmount) tx.Time
          txStreamVins txStreamVouts⟩, ?_, ?_⟩
        · show st2.txs ++ _ = st.txs ++ _
          rw [b2, a2]
        · show (if isCoinbaseTx tx then (0 : ℚ) else vinAmount - voutAmount) = _
          rw [a7, b6]
      · intro v2 hv2 addrs ha2 a ha
        obtain ⟨hhas, e, he, he1, he2, he3⟩ := b8 v2 hv2 addrs ha2 a ha
        exact ⟨hhas, e, List.mem_append_right _ he, he1, he2, he3⟩
      · intro vin hvin d hd X hX hbX
        exact List.mem_append_left _ (a9 vin hvin d hd X hX hbX)

/-! ### Block-level fold -/

theorem BTCSyncTxGo_spec (blockHash : String) :
    ∀ (ts : List Tx) (st stF : Store) (ev : List Event),
    BTCSyncTxGo st blockHash ts = .ok (stF, ev) →
      voutsKVA stF =
        voutsKVA st ++ (ts.map fun t => kvaOfVouts t.Txid t.Vout).flatten ∧
      stF.blocks = st.blocks ∧ stF.updateBalanceFails = st.updateBalanceFails ∧
      (∀ a, balanceHas st a → balanceHas stF a) ∧
      (∀ e ∈ ev, e.txid ∈ ts.map Tx.Txid) := by
  intro ts
  induction ts with
  | nil =>
    intro st stF ev h
    rw [BTCSyncTxGo] at h
    injection h with h2
    injection h2 with h3 h4
    subst h3; subst h4
    exact ⟨by simp, rfl, rfl, fun a ha => ha, by simp⟩
  | cons t rest ih =>
    intro st stF ev h
    rw [BTCSyncTxGo] at h
    cases hone : BTCSyncTxOne st blockHash t with
    | error e => rw [hone] at h; exact Except.noConfusion h
    | ok p =>
      obtain ⟨stA, evA⟩ := p
      rw [hone] at h
      dsimp only at h
      cases hrec : BTCSyncTxGo stA blockHash rest with
      | error e => rw [hrec] at h; exact Except.noConfusion h
      | ok q =>
        obtain ⟨stB, evB⟩ := q
        rw [hrec] at h
        injection h with h2
        injection h2 with h3 h4
        subst h3; subst h4
        obtain ⟨a1, a2, a3, a4, a5, _, _, _⟩ :=
          BTCSyncTxOne_spec st blockHash t stA evA hone
        obtain ⟨g1, g2, g3, g4, g5⟩ := ih stA stB evB hrec
        refine ⟨?_, g2.trans a2, g3.trans a3, fun a ha => g4 a (a4 a ha), ?_⟩
        · rw [g1, a1, List.map_cons, List.flatten_cons, List.append_assoc]
        · intro e he
          rcases List.mem_append.mp he with he | he
          · rw [List.map_cons, a5 e he]
            exact List.mem_cons_self _ _
          · rw [List.map_cons]
            exact List.mem_cons_of_mem _ (g5 e he)

theorem BTCSyncTxGo_append (blockHash : String) :
    ∀ (ls1 ls2 : List Tx) (st stF : Store) (ev : List Event),
    BTCSyncTxGo st blockHash (ls1 ++ ls2) = .ok (stF, ev) →
      ∃ stM ev1 ev2, BTCSyncTxGo st blockHash ls1 = .ok (stM, ev1) ∧
        BTCSyncTxGo stM blockHash ls2 = .ok (stF, ev2) ∧ ev = ev1 ++ ev2 := by
  intro ls1
  induction ls1 with
  | nil =>
    intro ls2 st stF ev h
    exact ⟨st, [], ev, rfl, h, rfl⟩
  | cons t rest ih =>
    intro ls2 st stF ev h
    rw [List.cons_append, BTCSyncTxGo] at h
    cases hone : BTCSyncTxOne st blockHash t with
    | error e => rw [hone] at h; exact Except.noConfusion h
    | ok p =>
      obtain ⟨stA, evA⟩ := p
      rw [hone] at h
      dsimp only at h
      cases hrec : BTCSyncTxGo stA blockHash (rest ++ ls2) with
      | error e => rw [hrec] at h; exact Except.noConfusion h
      | ok q =>
        obtain ⟨stB, evB⟩ := q
        rw [hrec] at h
        injection h with h2
        injection h2 with h3 h4
        subst h3; subst h4
        obtain ⟨stM, ev1, ev2, hm1, hm2, hm3⟩ := ih ls2 stA stB evB hrec
        refine ⟨stM, evA ++ ev1, ev2, ?_, hm2, by rw [hm3, List.append_assoc]⟩
        rw [BTCSyncTxGo, hone]
        dsimp only
        rw [hm1]

/-! ### Locating the created output among the projected entries -/

theorem findKVA_append_none (l1 l2 : List (String × Nat × ℚ × List String))
    (t : String) (n : Nat) (h : findKVA l1 t n = none) :
    findKVA (l1 ++ l2) t n = findKVA l2 t n := by
  unfold findKVA at h ⊢
  induction l1 with
  | nil => simp
  | cons e rest ih =>
    rw [List.find?_cons] at h
    rw [List.cons_append, List.find?_cons]
    cases hp : decide (e.1 = t ∧ e.2.1 = n) with
    | true => rw [hp] at h; exact Option.noConfusion h
    | false =>
      rw [hp] at h
      exact ih h

theorem findKVA_append_some (l1 l2 : List (String × Nat × ℚ × List String))
    (t : String) (n : Nat) (e : String × Nat × ℚ × List String)
    (h : findKVA l1 t n = some e) :
    findKVA (l1 ++ l2) t n = some e := by
  unfold findKVA at h ⊢
  induction l1 with
  | nil => exact Option.noConfusion h
  | cons e2 rest ih =>
    rw [List.find?_cons] at h
    rw [List.cons_append, List.find?_cons]
    cases hp : decide (e2.1 = t ∧ e2.2.1 = n) with
    | true => rw [hp] at h; exact h
    | false =>
      rw [hp] at h
      exact ih h

theorem findKVA_eq_none (l : List (String × Nat × ℚ × List String))
    (t : String) (n : Nat) (h : ∀ e ∈ l, ¬(e.1 = t ∧ e.2.1 = n)) :
    findKVA l t n = none := by
  unfold findKVA
  rw [List.find?_eq_none]
  intro e he
  simpa using h e he

theorem mem_kvaOfVouts (txid : String) (vouts : List TxVout)
    (e : String × Nat × ℚ × List String) (h : e ∈ kvaOfVouts txid vouts) :
    e.1 = txid := by
  unfold kvaOfVouts at h
  obtain ⟨v, hv, hm⟩ := List.mem_filterMap.mp h
  cases ha : BTCVoutAddress v with
  | none => rw [ha] at hm; exact Option.noConfusion hm
  | some addrs =>
    rw [ha] at hm
    injection hm with hm2
    rw [← hm2]

theorem findKVA_kvaOfVouts (txid : String) (vouts : List TxVout) (v : TxVout)
    (hv : v ∈ vouts) (haddr : v.Addresses ≠ [])
    (huniq : ∀ v2 ∈ vouts, v2.N = v.N → v2 = v) :
    findKVA (kvaOfVouts txid vouts) txid v.N =
      some (txid, v.N, v.Value, v.Addresses) := by
  induction vouts with
  | nil => exact absurd hv (List.not_mem_nil v)
  | cons w rest ih =>
    by_cases hwn : w.N = v.N
    · have hwv : w = v := huniq w (List.mem_cons_self w rest) hwn
      subst hwv
      rw [kvaOfVouts_cons_some txid w rest w.Addresses (by
        unfold BTCVoutAddress
        rw [if_neg haddr])]
      unfold findKVA
      rw [List.find?_cons]
      simp
    · have hvrest : v ∈ rest := by
        rcases List.mem_cons.mp hv with hv | hv
        · exact absurd (congrArg TxVout.N hv.symm) hwn
        · exact hv
      have ihr := ih hvrest fun v2 hv2 hn =>
        huniq v2 (List.mem_cons_of_mem _ hv2) hn
      cases ha : BTCVoutAddress w with
      | none => rw [kvaOfVouts_cons_none txid w rest ha]; exact ihr
      | some addrs =>
        rw [kvaOfVouts_cons_some txid w rest addrs ha]
        unfold findKVA at ihr ⊢
        rw [List.find?_cons]
        have : decide ((txid, w.N, w.Value, w.Addresses).1 = txid ∧
            (txid, w.N, w.Value, w.Addresses).2.1 = v.N) = false := by
          simp [hwn]
        rw [this]
        exact ihr

/-- Claim C4: the fee recorded in the IndexedTransaction document that
syncing one transaction appends equals the sum of the values of its found
referenced inputs minus the sum of the values of its indexed outputs, and
is forced to zero when the transaction is coinbase (one input, empty
referenced txid, non-empty coinbase marker). -/
theorem c4_fee_identity (st : Store) (blockHash : String) (tx : Tx)
    (st1 : Store) (ev : List Event)
    (h : BTCSyncTxOne st blockHash tx = .ok (st1, ev)) :
    ∃ d : TxDoc, st1.txs = st.txs ++ [d] ∧
      d.doc.Fee = if isCoinbaseTx tx then 0
        else vinFoundSum st tx.Vin - voutIndexedSum tx.Vout :=
  (BTCSyncTxOne_spec st blockHash tx st1 ev h).2.2.2.2.2.1

theorem nodup_middle_facts (xs ys zs : List String) (x y : String)
    (h : (xs ++ x :: ys ++ y :: zs).Nodup) :
    x ≠ y ∧ (∀ s ∈ xs, s ≠ x) ∧ (∀ s ∈ xs, s ≠ y) ∧ (∀ s ∈ ys, s ≠ x) ∧
    (∀ s ∈ ys, s ≠ y) ∧ (∀ s ∈ zs, s ≠ x) ∧ (∀ s ∈ zs, s ≠ y) := by
  rw [List.nodup_append] at h
  obtain ⟨hL, hR, hd⟩ := h
  rw [List.nodup_append] at hL
  obtain ⟨hxs, hxys, hd2⟩ := hL
  rw [List.nodup_cons] at hxys hR
  refine ⟨?_, ?_, ?_, ?_, ?_, ?_, ?_⟩
  · intro hxy
    exact hd (List.mem_append_right _ (List.mem_cons_self _ _))
      (by rw [hxy]; exact List.mem_cons_self _ _)
  · intro s hs hsx
    subst hsx
    exact hd2 hs (List.mem_cons_self _ _)
  · intro s hs hsy
    subst hsy
    exact hd (List.mem_append_left _ hs) (List.mem_cons_self _ _)
  · intro s hs hsx
    subst hsx
    exact hxys.1 hs
  · intro s hs hsy
    subst hsy
    exact hd (List.mem_append_right _ (List.mem_cons_of_mem _ hs))
      (List.mem_cons_self _ _)
  · intro s hs hsx
    subst hsx
    exact hd (List.mem_append_right _ (List.mem_cons_self _ _))
      (List.mem_cons_of_mem _ hs)
  · intro s hs hsy
    subst hsy
    exact hR.1 hs

theorem mem_voutsKVA (st : Store) (e : String × Nat × ℚ × List String)
    (h : e ∈ voutsKVA st) : ∃ d ∈ st.vouts, e = projKVA d := by
  obtain ⟨d, hd, heq⟩ := List.mem_map.mp h
  exact ⟨d, hd, heq.symm⟩

theorem mem_flat_chunks (ts : List Tx) (e : String × Nat × ℚ × List String)
    (h : e ∈ (ts.map fun t => kvaOfVouts t.Txid t.Vout).flatten) :
    ∃ t ∈ ts, e ∈ kvaOfVouts t.Txid t.Vout := by
  obtain ⟨l, hl, he⟩ := List.mem_flatten.mp h
  obtain ⟨t, ht, heq⟩ := List.mem_map.mp hl
  exact ⟨t, ht, heq ▸ he⟩

/-- Claim C9: in a block whose transaction list decomposes as
`l1 ++ T1 :: l2 ++ T2 :: l3` (T2 after T1), where `T1` has an output `v`
whose sole payee is `X` and whose output index is unique within `T1`,
`T2` has an input referencing `(T1.Txid, v.N)`, no pre-sync UnspentOutput
carries that key, and txids are distinct, syncing the block applies
`T1`'s credit of `X` before `T2`'s debit of `X` and never the reverse:
the event stream splits into a prefix holding the credit (with no
`T2`-tagged event) and a suffix holding the debit (with no `T1`-tagged
event). -/
theorem c9_credit_before_debit (st : Store) (frm height : Int) (b : Block)
    (l1 l2 l3 : List Tx) (T1 T2 : Tx) (v : TxVout) (X : String) (vin : Vin)
    (hb : b.Tx = l1 ++ T1 :: l2 ++ T2 :: l3)
    (hnodup : (b.Tx.map Tx.Txid).Nodup)
    (hv : v ∈ T1.Vout) (hvaddr : v.Addresses = [X])
    (huniq : ∀ v2 ∈ T1.Vout, v2.N = v.N → v2 = v)
    (hvin : vin ∈ T2.Vin) (hvintx : vin.Txid = T1.Txid) (hvinn : vin.Vout = v.N)
    (hfresh : ∀ d ∈ st.vouts,
      ¬(d.doc.TxIDBelongTo = T1.Txid ∧ d.doc.VoutIndex = v.N))
    (stF : Store) (ev : List Event)
    (hsync : BTCSyncTx st frm height b = .ok (stF, ev)) :
    ∃ E1 E2, ev = E1 ++ E2 ∧
      (∃ e ∈ E1, e.txid = T1.Txid ∧ e.address = X ∧
        (e.op = .credit ∨ e.op = .created) ∧ e.value = v.Value) ∧
      Event.mk T2.Txid X .debit v.Value ∈ E2 ∧
      (∀ e ∈ E1, e.txid ≠ T2.Txid) ∧ (∀ e ∈ E2, e.txid ≠ T1.Txid) := by
  have hmap : b.Tx.map Tx.Txid = (l1.map Tx.Txid) ++ T1.Txid ::
      (l2.map Tx.Txid) ++ T2.Txid :: (l3.map Tx.Txid) := by
    rw [hb]
    simp
  rw [hmap] at hnodup
  obtain ⟨hT1T2, hA1x, hA1y, hA2x, hA2y, hA3x, hA3y⟩ :=
    nodup_middle_facts _ _ _ _ _ hnodup
  unfold BTCSyncTx at hsync
  dsimp only at hsync
  rw [hb] at hsync
  obtain ⟨stC, evPre, evTail, hgoPre, hgoT, hevsplit⟩ :=
    BTCSyncTxGo_append b.Hash (l1 ++ T1 :: l2) (T2 :: l3) st stF ev hsync
  obtain ⟨stA, ev1, evM1, hgo1, hgoR, hevsplit1⟩ :=
    BTCSyncTxGo_append b.Hash l1 (T1 :: l2) st stC evPre hgoPre
  rw [BTCSyncTxGo] at hgoR
  cases hone1 : BTCSyncTxOne stA b.Hash T1 with
  | error e => rw [hone1] at hgoR; exact Except.noConfusion hgoR
  | ok p =>
    obtain ⟨stB, evT1⟩ := p
    rw [hone1] at hgoR
    dsimp only at hgoR
    cases hgoM : BTCSyncTxGo stB b.Hash l2 with
    | error e => rw [hgoM] at hgoR; exact Except.noConfusion hgoR
    | ok q =>
      obtain ⟨stC2, evMid⟩ := q
      rw [hgoM] at hgoR
      injection hgoR with hg2
      injection hg2 with hg3 hg4
      rw [← hg3] at hgoT
      rw [BTCSyncTxGo] at hgoT
      cases hone2 : BTCSyncTxOne stC2 b.Hash T2 with
      | error e => rw [hone2] at hgoT; exact Except.noConfusion hgoT
      | ok p2 =>
        obtain ⟨stD, evT2⟩ := p2
        rw [hone2] at hgoT
        dsimp only at hgoT
        cases hgo3 : BTCSyncTxGo stD b.Hash l3 with
        | error e => rw [hgo3] at hgoT; exact Except.noConfusion hgoT
        | ok q3 =>
          obtain ⟨stE, evPost⟩ := q3
          rw [hgo3] at hgoT
          injection hgoT with ht2
          injection ht2 with ht3 ht4
          obtain ⟨k1A, _, _, kp1, kt1⟩ := BTCSyncTxGo_spec b.Hash l1 st stA ev1 hgo1
          obtain ⟨o1kva, _, _, o1pres, o1tag, _, o1cred, _⟩ :=
            BTCSyncTxOne_spec stA b.Hash T1 stB evT1 hone1
          obtain ⟨kMkva, _, _, kMpres, kMtag⟩ :=
            BTCSyncTxGo_spec b.Hash l2 stB stC2 evMid hgoM
          obtain ⟨_, _, _, _, o2tag, _, _, o2deb⟩ :=
            BTCSyncTxOne_spec stC2 b.Hash T2 stD evT2 hone2
          obtain ⟨_, _, _, _, k3tag⟩ := BTCSyncTxGo_spec b.Hash l3 stD stE evPost hgo3
          have hBTCaddr : BTCVoutAddress v = some [X] := by
            unfold BTCVoutAddress
            rw [hvaddr]
            simp
          obtain ⟨hhasXB, e1c, he1c, he1addr, he1op, he1val⟩ :=
            o1cred v hv [X] hBTCaddr X (List.mem_singleton_self X)
          have hhasXC : balanceHas stC2 X := kMpres X hhasXB
          have hfind1 : findKVA (voutsKVA st) T1.Txid v.N = none := by
            refine findKVA_eq_none _ _ _ fun e he => ?_
            obtain ⟨d, hd, heq⟩ := mem_voutsKVA st e he
            subst heq
            exact hfresh d hd
          have hfindflat1 : findKVA
              ((l1.map fun t => kvaOfVouts t.Txid t.Vout).flatten) T1.Txid v.N = none := by
            refine findKVA_eq_none _ _ _ fun e he => ?_
            obtain ⟨t, ht, hte⟩ := mem_flat_chunks l1 e he
            intro hpred
            exact hA1x t.Txid (List.mem_map_of_mem _ ht)
              (by rw [← mem_kvaOfVouts t.Txid t.Vout e hte, hpred.1])
          have hfindT1 : findKVA (kvaOfVouts T1.Txid T1.Vout) T1.Txid v.N =
              some (T1.Txid, v.N, v.Value, v.Addresses) :=
            findKVA_kvaOfVouts T1.Txid T1.Vout v hv (by rw [hvaddr]; simp) huniq
          have hfindC : findKVA (voutsKVA stC2) T1.Txid v.N =
              some (T1.Txid, v.N, v.Value, v.Addresses) := by
            rw [kMkva, o1kva, k1A]
            have hAB : findKVA (voutsKVA st ++
                (l1.map fun t => kvaOfVouts t.Txid t.Vout).flatten) T1.Txid v.N =
                none := by
              rw [findKVA_append_none _ _ _ _ hfind1]
              exact hfindflat1
            have hABC : findKVA ((voutsKVA st ++
                (l1.map fun t => kvaOfVouts t.Txid t.Vout).flatten) ++
                kvaOfVouts T1.Txid T1.Vout) T1.Txid v.N =
                some (T1.Txid, v.N, v.Value, v.Addresses) := by
              rw [findKVA_append_none _ _ _ _ hAB]
              exact hfindT1
            exact findKVA_append_some _ _ _ _ _ hABC
          have hfindvout : ∃ d : VoutDoc,
              FindVoutByVoutIndexAndBelongTxID stC2 T1.Txid v.N = some d ∧
              projKVA d = (T1.Txid, v.N, v.Value, v.Addresses) := by
            have := FindVout_eq_findKVA stC2 T1.Txid v.N
            rw [hfindC] at this
            cases hf : FindVoutByVoutIndexAndBelongTxID stC2 T1.Txid v.N with
            | none => rw [hf] at this; exact absurd this (by simp)
            | some d =>
              rw [hf] at this
              exact ⟨d, rfl, by simpa using this⟩
          obtain ⟨d, hfd, hdproj⟩ := hfindvout
          have hdval : d.doc.Value = v.Value := by
            have := congrArg (fun e : String × Nat × ℚ × List String => e.2.2.1) hdproj
            simpa [projKVA] using this
          have hdaddr : d.doc.Addresses = [X] := by
            have := congrArg (fun e : String × Nat × ℚ × List String => e.2.2.2) hdproj
            rw [hvaddr] at this
            simpa [projKVA] using this
          have hdeb : Event.mk T2.Txid X .debit d.doc.Value ∈ evT2 := by
            refine o2deb vin hvin d ?_ X ?_ hhasXC
            · rw [hvintx, hvinn]
              exact hfd
            · rw [hdaddr]
              exact List.mem_singleton_self X
          rw [hdval] at hdeb
          refine ⟨ev1 ++ evT1, evMid ++ (evT2 ++ evPost), ?_, ?_, ?_, ?_, ?_⟩
          · rw [hevsplit, hevsplit1, ← hg4, ← ht4]
            simp [List.append_assoc]
          · exact ⟨e1c, List.mem_append_right _ he1c,
              o1tag e1c he1c, he1addr, he1op, he1val⟩
          · exact List.mem_append_right _ (List.mem_append_left _ hdeb)
          · intro e he
            rcases List.mem_append.mp he with he | he
            · exact hA1y e.txid (kt1 e he)
            · rw [o1tag e he]
              exact hT1T2
          · intro e he
            rcases List.mem_append.mp he with he | he
            · exact hA2x e.txid (kMtag e he)
            · rcases List.mem_append.mp he with he | he
              · rw [o2tag e he]
                exact fun hc => hT1T2 hc.symm
              · exact hA3x e.txid (k3tag e he)

/-- Claim C9, witness: in the two-transaction block `c1Block` (coinbase
pays `A`, then `t2` spends that output), the events of the sync split
into a prefix carrying `A`'s credit and a suffix carrying `A`'s debit. -/
theorem c9_credit_before_debit_witness :
    ∃ E1 E2, syncEvents c1Store 0 7 c1Block = E1 ++ E2 ∧
      (∃ e ∈ E1, e.txid = cbTxA.Txid ∧ e.address = "A" ∧
        (e.op = .credit ∨ e.op = .created) ∧
        e.value = (⟨50, 0, ["A"]⟩ : TxVout).Value) ∧
      Event.mk spendTxB.Txid "A" .debit (⟨50, 0, ["A"]⟩ : TxVout).Value ∈ E2 ∧
      (∀ e ∈ E1, e.txid ≠ spendTxB.Txid) ∧ (∀ e ∈ E2, e.txid ≠ cbTxA.Txid) :=
  c9_credit_before_debit c1Store 0 7 c1Block [] [] [] cbTxA spendTxB
    ⟨50, 0, ["A"]⟩ "A" ⟨"t1", 0, ""⟩ rfl (by decide)
    (by with_unfolding_all decide) rfl (by with_unfolding_all decide)
    (by with_unfolding_all decide) rfl rfl (by decide)
    (syncStore c1Store 0 7 c1Block) (syncEvents c1Store 0 7 c1Block)
    (by with_unfolding_all rfl)

/-! ### Balance-delta algebra: the rollback deltas cancel the sync deltas -/

theorem upd1_eq (bs : List BalanceDoc) (a : String) (v : ℚ) :
    upd1 bs a v =
      match bs.find? fun d => decide (d.doc.Address = a) with
      | none => bs
      | some d => setA bs d.id (d.doc.Amount + v) := rfl

theorem setA_shape (bs : List BalanceDoc) (i : Nat) (amt : ℚ) :
    (setA bs i amt).map shapeProj = bs.map shapeProj := by
  unfold setA
  rw [List.map_map]
  refine List.map_congr_left fun d _ => ?_
  by_cases hd : d.id = i <;> simp [Function.comp, shapeProj, hd]

theorem listHas_mono_of_shape (bs1 bs2 : List BalanceDoc)
    (h : bs1.map shapeProj = bs2.map shapeProj) (a : String)
    (ha : listHas bs1 a) : listHas bs2 a := by
  obtain ⟨d, hd, hda⟩ := ha
  have hmem : shapeProj d ∈ bs2.map shapeProj := by
    rw [← h]
    exact List.mem_map_of_mem _ hd
  obtain ⟨d2, hd2, he⟩ := List.mem_map.mp hmem
  refine ⟨d2, hd2, ?_⟩
  have h2 := congrArg Prod.snd he
  simp only [shapeProj] at h2
  rw [h2, hda]

theorem find?_setA_none (bs : List BalanceDoc) (i : Nat) (amt : ℚ) (a : String)
    (h : (bs.find? fun d => decide (d.doc.Address = a)) = none) :
    ((setA bs i amt).find? fun d => decide (d.doc.Address = a)) = none := by
  rw [List.find?_eq_none] at h ⊢
  intro d hd
  unfold setA at hd
  obtain ⟨e, he, hde⟩ := List.mem_map.mp hd
  have h2 := h e he
  by_cases hei : e.id = i
  · rw [← hde]
    simpa [hei] using h2
  · rw [← hde]
    simpa [hei] using h2

theorem find?_setA_some (bs : List BalanceDoc) (i : Nat) (amt : ℚ) (a : String)
    (db : BalanceDoc)
    (h : (bs.find? fun d => decide (d.doc.Address = a)) = some db) :
    ((setA bs i amt).find? fun d => decide (d.doc.Address = a)) =
      some (if db.id = i then ⟨db.id, ⟨db.doc.Address, amt⟩⟩ else db) := by
  unfold setA
  induction bs with
  | nil => exact Option.noConfusion h
  | cons e rest ih =>
    rw [List.find?_cons] at h
    rw [List.map_cons, List.find?_cons]
    cases hp : decide (e.doc.Address = a) with
    | true =>
      rw [hp] at h
      injection h with h2
      subst h2
      have hsel : decide ((if e.id = i then
          (⟨e.id, ⟨e.doc.Address, amt⟩⟩ : BalanceDoc) else e).doc.Address = a) = true := by
        by_cases hei : e.id = i <;> simp only [hei, if_true, if_false] <;>
          simpa using hp
      rw [hsel]
    | false =>
      rw [hp] at h
      have hsel : decide ((if e.id = i then
          (⟨e.id, ⟨e.doc.Address, amt⟩⟩ : BalanceDoc) else e).doc.Address = a) = false := by
        by_cases hei : e.id = i <;> simp only [hei, if_true, if_false] <;>
          simpa using hp
      rw [hsel]
      exact ih h

theorem setA_setA_same (bs : List BalanceDoc) (i : Nat) (x y : ℚ) :
    setA (setA bs i x) i y = setA bs i y := by
  unfold setA
  rw [List.map_map]
  refine List.map_congr_left fun d _ => ?_
  by_cases hd : d.id = i <;> simp [Function.comp, hd]

theorem setA_setA_comm (bs : List BalanceDoc) (i j : Nat) (hij : i ≠ j)
    (x y : ℚ) : setA (setA bs i x) j y = setA (setA bs j y) i x := by
  unfold setA
  rw [List.map_map, List.map_map]
  refine List.map_congr_left fun d _ => ?_
  by_cases hdi : d.id = i
  · have hdj : d.id ≠ j := fun h2 => hij (hdi ▸ h2)
    simp [Function.comp, hdi, hdj, hij]
  · by_cases hdj : d.id = j <;>
      simp [Function.comp, hdi, hdj, hij, Ne.symm hij]

theorem setA_eq_self (bs : List BalanceDoc) (i : Nat) (amt : ℚ)
    (h : ∀ e ∈ bs, e.id = i → e.doc.Amount = amt) : setA bs i amt = bs := by
  unfold setA
  have h2 : (bs.map fun d =>
      if d.id = i then (⟨d.id, ⟨d.doc.Address, amt⟩⟩ : BalanceDoc) else d) =
      bs.map fun d => d := by
    refine List.map_congr_left fun d hd => ?_
    by_cases hdi : d.id = i
    · rw [if_pos hdi, ← h d hd hdi]
    · rw [if_neg hdi]
  simpa using h2

theorem upd1_shape (bs : List BalanceDoc) (a : String) (v : ℚ) :
    (upd1 bs a v).map shapeProj = bs.map shapeProj := by
  rw [upd1_eq]
  cases hf : bs.find? fun d => decide (d.doc.Address = a) with
  | none => rfl
  | some d => exact setA_shape bs d.id (d.doc.Amount + v)

theorem upd1_ids (bs : List BalanceDoc) (a : String) (v : ℚ) :
    (upd1 bs a v).map (fun d => d.id) = bs.map fun d => d.id := by
  have h2 := congrArg (List.map Prod.fst) (upd1_shape bs a v)
  simpa [List.map_map, Function.comp, shapeProj] using h2

theorem upd1_cancel (bs : List BalanceDoc)
    (h : (bs.map fun d => d.id).Nodup) (a : String) (v : ℚ) :
    upd1 (upd1 bs a v) a (-v) = bs := by
  cases hf : bs.find? fun d => decide (d.doc.Address = a) with
  | none =>
    have h1 : upd1 bs a v = bs := by rw [upd1_eq bs a v, hf]
    have h2 : upd1 bs a (-v) = bs := by rw [upd1_eq bs a (-v), hf]
    rw [h1, h2]
  | some d =>
    have hd := List.mem_of_find?_eq_some hf
    have h1 : upd1 bs a v = setA bs d.id (d.doc.Amount + v) := by
      rw [upd1_eq bs a v, hf]
    have h2 : upd1 (setA bs d.id (d.doc.Amount + v)) a (-v) =
        setA (setA bs d.id (d.doc.Amount + v)) d.id (d.doc.Amount + v + -v) := by
      rw [upd1_eq (setA bs d.id (d.doc.Amount + v)) a (-v),
        find?_setA_some bs d.id (d.doc.Amount + v) a d hf, if_pos rfl]
    rw [h1, h2, setA_setA_same]
    refine setA_eq_self bs d.id _ fun e he hei => ?_
    have hed : e = d := List.inj_on_of_nodup_map h he hd hei
    rw [hed]
    ring

theorem upd1_comm (bs : List BalanceDoc)
    (h : (bs.map fun d => d.id).Nodup) (a b : String) (v w : ℚ) :
    upd1 (upd1 bs a v) b w = upd1 (upd1 bs b w) a v := by
  cases hfa : bs.find? fun d => decide (d.doc.Address = a) with
  | none =>
    have h1 : upd1 bs a v = bs := by rw [upd1_eq bs a v, hfa]
    cases hfb : bs.find? fun d => decide (d.doc.Address = b) with
    | none =>
      have h2 : upd1 bs b w = bs := by rw [upd1_eq bs b w, hfb]
      rw [h1, h2, h1]
    | some db =>
      have h2 : upd1 bs b w = setA bs db.id (db.doc.Amount + w) := by
        rw [upd1_eq bs b w, hfb]
      have h3 : upd1 (setA bs db.id (db.doc.Amount + w)) a v =
          setA bs db.id (db.doc.Amount + w) := by
        rw [upd1_eq (setA bs db.id (db.doc.Amount + w)) a v,
          find?_setA_none bs db.id (db.doc.Amount + w) a hfa]
      rw [h1, h2, h3]
  | some da =>
    have h1 : upd1 bs a v = setA bs da.id (da.doc.Amount + v) := by
      rw [upd1_eq bs a v, hfa]
    cases hfb : bs.find? fun d => decide (d.doc.Address = b) with
    | none =>
      have h2 : upd1 bs b w = bs := by rw [upd1_eq bs b w, hfb]
      have h3 : upd1 (setA bs da.id (da.doc.Amount + v)) b w =
          setA bs da.id (da.doc.Amount + v) := by
        rw [upd1_eq (setA bs da.id (da.doc.Amount + v)) b w,
          find?_setA_none bs da.id (da.doc.Amount + v) b hfb]
      rw [h1, h3, h2, h1]
    | some db =>
      have hda := List.mem_of_find?_eq_some hfa
      have hdb := List.mem_of_find?_eq_some hfb
      have haddra : da.doc.Address = a := by
        simpa using List.find?_some hfa
      have haddrb : db.doc.Address = b := by
        simpa using List.find?_some hfb
      by_cases hid : db.id = da.id
      · have hdbda : db = da := List.inj_on_of_nodup_map h hdb hda hid
        have hab : a = b := by rw [← haddra, ← haddrb, hdbda]
        subst hab
        have h2 : upd1 bs a w = setA bs da.id (da.doc.Amount + w) := by
          rw [upd1_eq bs a w, hfb, hdbda]
        have h3 : upd1 (setA bs da.id (da.doc.Amount + v)) a w =
            setA bs da.id (da.doc.Amount + v + w) := by
          rw [upd1_eq (setA bs da.id (da.doc.Amount + v)) a w,
            find?_setA_some bs da.id (da.doc.Amount + v) a da hfa, if_pos rfl]
          dsimp only
          rw [setA_setA_same]
        have h4 : upd1 (setA bs da.id (da.doc.Amount + w)) a v =
            setA bs da.id (da.doc.Amount + w + v) := by
          rw [upd1_eq (setA bs da.id (da.doc.Amount + w)) a v,
            find?_setA_some bs da.id (da.doc.Amount + w) a da hfa, if_pos rfl]
          dsimp only
          rw [setA_setA_same]
        rw [h1, h3, h2, h4]
        exact congrArg (setA bs da.id) (by ring)
      · have h2 : upd1 bs b w = setA bs db.id (db.doc.Amount + w) := by
          rw [upd1_eq bs b w, hfb]
        have h3 : upd1 (setA bs da.id (da.doc.Amount + v)) b w =
            setA (setA bs da.id (da.doc.Amount + v)) db.id (db.doc.Amount + w) := by
          rw [upd1_eq (setA bs da.id (da.doc.Amount + v)) b w,
            find?_setA_some bs da.id (da.doc.Amount + v) b db hfb, if_neg hid]
        have h4 : upd1 (setA bs db.id (db.doc.Amount + w)) a v =
            setA (setA bs db.id (db.doc.Amount + w)) da.id (da.doc.Amount + v) := by
          rw [upd1_eq (setA bs db.id (db.doc.Amount + w)) a v,
            find?_setA_some bs db.id (db.doc.Amount + w) a da hfa,
            if_neg fun h5 => hid h5.symm]
        rw [h1, h3, h2, h4]
        exact setA_setA_comm bs da.id db.id (fun h5 => hid h5.symm)
          (da.doc.Amount + v) (db.doc.Amount + w)

theorem applyPairs_cons (bs : List BalanceDoc) (p : String × ℚ)
    (ps : List (String × ℚ)) :
    applyPairs bs (p :: ps) = applyPairs (upd1 bs p.1 p.2) ps := rfl

theorem applyPairs_append (bs : List BalanceDoc) (p q : List (String × ℚ)) :
    applyPairs bs (p ++ q) = applyPairs (applyPairs bs p) q := by
  unfold applyPairs
  rw [List.foldl_append]

theorem applyPairs_shape (ps : List (String × ℚ)) :
    ∀ bs : List BalanceDoc,
      (applyPairs bs ps).map shapeProj = bs.map shapeProj := by
  induction ps with
  | nil => exact fun bs => rfl
  | cons p rest ih =>
    intro bs
    rw [applyPairs_cons]
    rw [ih (upd1 bs p.1 p.2)]
    exact upd1_shape bs p.1 p.2

theorem applyPairs_ids (ps : List (String × ℚ)) (bs : List BalanceDoc) :
    (applyPairs bs ps).map (fun d => d.id) = bs.map fun d => d.id := by
  have h2 := congrArg (List.map Prod.fst) (applyPairs_shape ps bs)
  simpa [List.map_map, Function.comp, shapeProj] using h2

theorem upd1_applyPairs_comm (ps : List (String × ℚ)) :
    ∀ (bs : List BalanceDoc), (bs.map fun d => d.id).Nodup →
    ∀ (a : String) (v : ℚ),
      upd1 (applyPairs bs ps) a v = applyPairs (upd1 bs a v) ps := by
  induction ps with
  | nil => exact fun bs _ a v => rfl
  | cons p rest ih =>
    intro bs h a v
    rw [applyPairs_cons, applyPairs_cons]
    have hnd : ((upd1 bs p.1 p.2).map fun d => d.id).Nodup := by
      rw [upd1_ids]
      exact h
    rw [ih (upd1 bs p.1 p.2) hnd a v,
      upd1_comm bs h a p.1 v p.2]

theorem applyPairs_cancel (p : List (String × ℚ)) :
    ∀ (bs : List BalanceDoc), (bs.map fun d => d.id).Nodup →
    ∀ q : List (String × ℚ),
      applyPairs (applyPairs bs (p ++ q)) (negPairs p) = applyPairs bs q := by
  induction p with
  | nil => exact fun bs _ q => rfl
  | cons hd rest ih =>
    intro bs h q
    obtain ⟨a, v⟩ := hd
    have hstep : negPairs ((a, v) :: rest) = (a, -v) :: negPairs rest := rfl
    rw [hstep, List.cons_append, applyPairs_cons, applyPairs_cons]
    have hnd : ((upd1 bs a v).map fun d => d.id).Nodup := by
      rw [upd1_ids]
      exact h
    rw [upd1_applyPairs_comm (rest ++ q) (upd1 bs a v) hnd a (-v),
      upd1_cancel bs h a v]
    exact ih bs h q

/-! ### Closed forms of the sync engine under the amended hypotheses -/

theorem exists_find?_of_listHas (bs : List BalanceDoc) (a : String)
    (h : listHas bs a) :
    ∃ d, (bs.find? fun d => decide (d.doc.Address = a)) = some d := by
  cases hf : bs.find? fun d => decide (d.doc.Address = a) with
  | some d => exact ⟨d, rfl⟩
  | none =>
    obtain ⟨d, hd, hda⟩ := h
    have h2 := List.find?_eq_none.mp hf d hd
    simp [hda] at h2

theorem upsert_present_eq_setA (bs : List BalanceDoc) (i : Nat) (amt : ℚ)
    (h : (bs.any fun d => d.id = i) = true) :
    upsertBalanceAmount bs i amt = setA bs i amt := by
  unfold upsertBalanceAmount setA
  rw [if_pos h]

theorem writeBalanceAmount_of_ok (st : Store) (id : Nat) (amt : ℚ)
    (hflag : st.updateBalanceFails = false) :
    writeBalanceAmount st id amt =
      { st with balances := upsertBalanceAmount st.balances id amt } := by
  unfold writeBalanceAmount
  rw [hflag]
  rfl

theorem writeBalanceAmount_present (st : Store) (a : String) (v : ℚ)
    (d : BalanceDoc)
    (hf : (st.balances.find? fun e => decide (e.doc.Address = a)) = some d)
    (hflag : st.updateBalanceFails = false) :
    writeBalanceAmount st d.id (d.doc.Amount + v) =
      { st with balances := upd1 st.balances a v } := by
  have hd := List.mem_of_find?_eq_some hf
  have hany : (st.balances.any fun e => e.id = d.id) = true :=
    List.any_eq_true.mpr ⟨d, hd, by simp⟩
  have hbal : upd1 st.balances a v = setA st.balances d.id (d.doc.Amount + v) := by
    rw [upd1_eq st.balances a v, hf]
  rw [writeBalanceAmount_of_ok st d.id (d.doc.Amount + v) hflag,
    upsert_present_eq_setA st.balances d.id (d.doc.Amount + v) hany, hbal]

theorem writeBalanceAmount_present_sub (st : Store) (a : String) (v : ℚ)
    (d : BalanceDoc)
    (hf : (st.balances.find? fun e => decide (e.doc.Address = a)) = some d)
    (hflag : st.updateBalanceFails = false) :
    writeBalanceAmount st d.id (d.doc.Amount - v) =
      { st with balances := upd1 st.balances a (-v) } := by
  have h2 : d.doc.Amount - v = d.doc.Amount + -v := sub_eq_add_neg _ _
  rw [h2]
  exact writeBalanceAmount_present st a (-v) d hf hflag

theorem BTCSyncTxCredits_closed (txid : String) (v : ℚ) :
    ∀ (addrs : List String) (st : Store),
      st.updateBalanceFails = false →
      (∀ a ∈ addrs, listHas st.balances a) →
      ∃ st1 evs, BTCSyncTxCredits st txid v addrs = .ok (st1, evs) ∧
        st1.balances = applyPairs st.balances (addrs.map fun a => (a, v)) ∧
        st1.vouts = st.vouts ∧ st1.blocks = st.blocks ∧ st1.txs = st.txs ∧
        st1.updateBalanceFails = st.updateBalanceFails ∧
        st1.nextId = st.nextId := by
  intro addrs
  induction addrs with
  | nil =>
    intro st hflag hpres
    exact ⟨st, [], rfl, rfl, rfl, rfl, rfl, rfl, rfl⟩
  | cons a rest ih =>
    intro st hflag hpres
    obtain ⟨d, hf⟩ := exists_find?_of_listHas st.balances a
      (hpres a (List.mem_cons_self a rest))
    have hFB : FindBalanceWithAddressOrInitWithAmount st a v = (some d.id, d.doc) := by
      unfold FindBalanceWithAddressOrInitWithAmount
      rw [hf]
    have hflag2 : ({ st with balances := upd1 st.balances a v } : Store).updateBalanceFails = false := hflag
    have hpres2 : ∀ a2 ∈ rest,
        listHas ({ st with balances := upd1 st.balances a v } : Store).balances a2 :=
      fun a2 ha2 =>
        listHas_mono_of_shape st.balances _ (upd1_shape st.balances a v).symm a2
          (hpres a2 (List.mem_cons_of_mem a ha2))
    obtain ⟨st2, evs, heq, b1, b2, b3, b4, b5, b6⟩ :=
      ih { st with balances := upd1 st.balances a v } hflag2 hpres2
    refine ⟨st2, Event.mk txid a .credit v :: evs, ?_, ?_, b2, b3, b4, b5, b6⟩
    · rw [BTCSyncTxCredits, hFB]
      dsimp only
      rw [UpdateBTCBlance_add st d.id d.doc v]
      dsimp only
      rw [writeBalanceAmount_present st a v d hf hflag, heq]
    · rw [b1, List.map_cons, applyPairs_cons]

theorem mkVoutDocs_cons_some (s : Nat) (tx : Tx) (v : TxVout)
    (rest : List TxVout) (addrs : List String)
    (h : BTCVoutAddress v = some addrs) :
    mkVoutDocs s tx (v :: rest) =
      ⟨s, BTCVoutStream v tx.Vin tx.Txid⟩ :: mkVoutDocs (s + 1) tx rest := by
  rw [mkVoutDocs, h]

theorem mkVoutDocs_cons_none (s : Nat) (tx : Tx) (v : TxVout)
    (rest : List TxVout) (h : BTCVoutAddress v = none) :
    mkVoutDocs s tx (v :: rest) = mkVoutDocs s tx rest := by
  rw [mkVoutDocs, h]

theorem countIndexed_cons_some (v : TxVout) (rest : List TxVout)
    (addrs : List String) (h : BTCVoutAddress v = some addrs) :
    countIndexed (v :: rest) = 1 + countIndexed rest := by
  rw [countIndexed, h]

theorem countIndexed_cons_none (v : TxVout) (rest : List TxVout)
    (h : BTCVoutAddress v = none) :
    countIndexed (v :: rest) = countIndexed rest := by
  rw [countIndexed, h, Nat.zero_add]

theorem creditsOfVouts_cons (v : TxVout) (rest : List TxVout) :
    creditsOfVouts (v :: rest) = creditsOfVout v ++ creditsOfVouts rest := rfl

theorem creditsOfVout_some (v : TxVout) (addrs : List String)
    (h : BTCVoutAddress v = some addrs) :
    creditsOfVout v = addrs.map fun a => (a, v.Value) := by
  unfold creditsOfVout
  rw [h]

theorem creditsOfVout_none (v : TxVout) (h : BTCVoutAddress v = none) :
    creditsOfVout v = [] := by
  unfold creditsOfVout
  rw [h]

theorem mkBlockDocs_cons (s : Nat) (t : Tx) (rest : List Tx) :
    mkBlockDocs s (t :: rest) =
      mkVoutDocs s t t.Vout ++
        mkBlockDocs (s + countIndexed t.Vout + 1) rest := rfl

theorem listKeys_cons (t : Tx) (rest : List Tx) :
    listKeys (t :: rest) =
      (t.Vout.map fun v => (t.Txid, v.N)) ++ listKeys rest := rfl

theorem blockCredits_cons (t : Tx) (rest : List Tx) :
    blockCredits (t :: rest) = creditsOfTx t ++ blockCredits rest := rfl

theorem BTCSyncTxVouts_closed (tx : Tx) :
    ∀ (vouts : List TxVout) (st : Store),
      st.updateBalanceFails = false →
      (∀ v2 ∈ vouts, ∀ a ∈ v2.Addresses, listHas st.balances a) →
      ∃ st1 amt tsv evs, BTCSyncTxVouts st tx vouts = .ok (st1, amt, tsv, evs) ∧
        st1.vouts = st.vouts ++ mkVoutDocs st.nextId tx vouts ∧
        st1.balances = applyPairs st.balances (creditsOfVouts vouts) ∧
        st1.blocks = st.blocks ∧ st1.txs = st.txs ∧
        st1.updateBalanceFails = st.updateBalanceFails ∧
        st1.nextId = st.nextId + countIndexed vouts := by
  intro vouts
  induction vouts with
  | nil =>
    intro st hflag hpres
    refine ⟨st, 0, [], [], rfl, ?_, rfl, rfl, rfl, rfl, rfl⟩
    rw [mkVoutDocs, List.append_nil]
  | cons vout rest ih =>
    intro st hflag hpres
    cases haddr : BTCVoutAddress vout with
    | none =>
      have hpres2 : ∀ v2 ∈ rest, ∀ a ∈ v2.Addresses, listHas st.balances a :=
        fun v2 hv2 => hpres v2 (List.mem_cons_of_mem vout hv2)
      obtain ⟨st1, amt, tsv, evs, heq, g1, g2, g3, g4, g5, g6⟩ := ih st hflag hpres2
      refine ⟨st1, amt, tsv, evs, ?_, ?_, ?_, g3, g4, g5, ?_⟩
      · rw [BTCSyncTxVouts, haddr]
        exact heq
      · rw [mkVoutDocs_cons_none st.nextId tx vout rest haddr]
        exact g1
      · rw [creditsOfVouts_cons, creditsOfVout_none vout haddr, List.nil_append]
        exact g2
      · rw [countIndexed_cons_none vout rest haddr]
        exact g6
    | some addresses =>
      have haddr2 : addresses = vout.Addresses := by
        unfold BTCVoutAddress at haddr
        by_cases h2 : vout.Addresses = []
        · rw [if_pos h2] at haddr
          exact Option.noConfusion haddr
        · rw [if_neg h2] at haddr
          injection haddr with h3
          exact h3.symm
      have hflagI : (indexVout st (BTCVoutStream vout tx.Vin tx.Txid)).updateBalanceFails = false := hflag
      have hpresI : ∀ a ∈ addresses,
          listHas (indexVout st (BTCVoutStream vout tx.Vin tx.Txid)).balances a := by
        intro a ha
        rw [haddr2] at ha
        exact hpres vout (List.mem_cons_self vout rest) a ha
      obtain ⟨stC, evs1, heqC, c1, c2, c3, c4, c5, c6⟩ :=
        BTCSyncTxCredits_closed tx.Txid vout.Value addresses
          (indexVout st (BTCVoutStream vout tx.Vin tx.Txid)) hflagI hpresI
      have hflagC : stC.updateBalanceFails = false := c5.trans hflag
      have hpresC : ∀ v2 ∈ rest, ∀ a ∈ v2.Addresses, listHas stC.balances a := by
        intro v2 hv2 a ha
        have hshape : st.balances.map shapeProj = stC.balances.map shapeProj := by
          rw [c1]
          exact (applyPairs_shape _ _).symm
        exact listHas_mono_of_shape st.balances stC.balances hshape a
          (hpres v2 (List.mem_cons_of_mem vout hv2) a ha)
      obtain ⟨st1, amt, tsv, evs2, heq2, g1, g2, g3, g4, g5, g6⟩ := ih stC hflagC hpresC
      refine ⟨st1, vout.Value + amt, ⟨addresses.headD "", vout.Value⟩ :: tsv,
        evs1 ++ evs2, ?_, ?_, ?_, ?_, ?_, ?_, ?_⟩
      · rw [BTCSyncTxVouts, haddr]
        dsimp only
        rw [heqC]
        dsimp only
        rw [heq2]
      · rw [g1, c2]
        rw [mkVoutDocs_cons_some st.nextId tx vout rest addresses haddr]
        show (st.vouts ++ [⟨st.nextId, BTCVoutStream vout tx.Vin tx.Txid⟩]) ++
          mkVoutDocs stC.nextId tx rest = _
        rw [List.append_assoc, c6]
        rfl
      · rw [g2, c1]
        show applyPairs
          (applyPairs st.balances (addresses.map fun a => (a, vout.Value)))
          (creditsOfVouts rest) = _
        rw [← applyPairs_append, creditsOfVouts_cons,
          creditsOfVout_some vout addresses haddr]
      · exact g3.trans c3
      · exact g4.trans c4
      · exact g5.trans c5
      · rw [g6, c6, countIndexed_cons_some vout rest addresses haddr]
        show st.nextId + 1 + countIndexed rest = _
        omega

theorem find?_append_of_none {α : Type} (p : α → Bool) (l1 l2 : List α)
    (h : l1.find? p = none) : (l1 ++ l2).find? p = l2.find? p := by
  induction l1 with
  | nil => rfl
  | cons x rest ih =>
    rw [List.find?_cons] at h
    cases hp : p x with
    | true =>
      rw [hp] at h
      exact Option.noConfusion h
    | false =>
      rw [hp] at h
      rw [List.cons_append, List.find?_cons, hp]
      exact ih h

theorem BTCSyncTxVins_noop (txid : String) :
    ∀ (vins : List Vin) (st : Store),
      (∀ vin ∈ vins, ∀ d ∈ st.vouts, d.doc.TxIDBelongTo ≠ vin.Txid) →
      BTCSyncTxVins st txid vins = .ok (st, 0, [], []) := by
  intro vins
  induction vins with
  | nil => intro st h; rfl
  | cons vin rest ih =>
    intro st h
    have hfind : FindVoutByVoutIndexAndBelongTxID st vin.Txid vin.Vout = none := by
      unfold FindVoutByVoutIndexAndBelongTxID
      rw [List.find?_eq_none]
      intro d hd
      simp only [decide_eq_true_eq]
      rintro ⟨h1, h2⟩
      exact h vin (List.mem_cons_self vin rest) d hd h1
    rw [BTCSyncTxVins, hfind]
    exact ih st fun vin2 hv2 => h vin2 (List.mem_cons_of_mem vin hv2)

theorem BTCSyncTxOne_closed (st : Store) (blockHash : String) (tx : Tx)
    (hflag : st.updateBalanceFails = false)
    (hvins : ∀ vin ∈ tx.Vin, ∀ d ∈ st.vouts, d.doc.TxIDBelongTo ≠ vin.Txid)
    (hpres : ∀ v2 ∈ tx.Vout, ∀ a ∈ v2.Addresses, listHas st.balances a) :
    ∃ st1 evs, BTCSyncTxOne st blockHash tx = .ok (st1, evs) ∧
      st1.vouts = st.vouts ++ mkVoutDocs st.nextId tx tx.Vout ∧
      st1.balances = applyPairs st.balances (creditsOfVouts tx.Vout) ∧
      st1.blocks = st.blocks ∧
      st1.updateBalanceFails = st.updateBalanceFails ∧
      st1.nextId = st.nextId + countIndexed tx.Vout + 1 := by
  obtain ⟨stV, amt, tsv, evs2, heq2, g1, g2, g3, g4, g5, g6⟩ :=
    BTCSyncTxVouts_closed tx tx.Vout st hflag hpres
  refine ⟨indexTx stV (BTCTxStream tx.Txid blockHash
      (if isCoinbaseTx tx then 0 else 0 - amt) tx.Time [] tsv),
    [] ++ evs2, ?_, g1, g2, g3, g5, by rw [show (indexTx stV _).nextId = stV.nextId + 1 from rfl, g6]⟩
  rw [BTCSyncTxOne, BTCSyncTxVins_noop tx.Txid tx.Vin st hvins]
  dsimp only
  rw [heq2]

theorem mem_mkVoutDocs (tx : Tx) :
    ∀ (vouts : List TxVout) (s : Nat) (d : VoutDoc),
      d ∈ mkVoutDocs s tx vouts →
        d.doc.TxIDBelongTo = tx.Txid ∧ d.doc.Used = none ∧ s ≤ d.id ∧
        ∃ v ∈ vouts, d.doc.VoutIndex = v.N ∧ d.doc.Value = v.Value ∧
          d.doc.Addresses = v.Addresses := by
  intro vouts
  induction vouts with
  | nil => intro s d hd; exact absurd hd (List.not_mem_nil d)
  | cons v rest ih =>
    intro s d hd
    cases haddr : BTCVoutAddress v with
    | none =>
      rw [mkVoutDocs_cons_none s tx v rest haddr] at hd
      obtain ⟨p1, p2, p3, v2, hv2, p4⟩ := ih s d hd
      exact ⟨p1, p2, p3, v2, List.mem_cons_of_mem v hv2, p4⟩
    | some addrs =>
      rw [mkVoutDocs_cons_some s tx v rest addrs haddr] at hd
      rcases List.mem_cons.mp hd with hd | hd
      · subst hd
        exact ⟨rfl, rfl, Nat.le_refl s, v, List.mem_cons_self v rest, rfl, rfl, rfl⟩
      · obtain ⟨p1, p2, p3, v2, hv2, p4⟩ := ih (s + 1) d hd
        exact ⟨p1, p2, Nat.le_of_succ_le p3, v2, List.mem_cons_of_mem v hv2, p4⟩

theorem mem_mkBlockDocs :
    ∀ (ts : List Tx) (s : Nat) (d : VoutDoc),
      d ∈ mkBlockDocs s ts →
        d.doc.Used = none ∧ s ≤ d.id ∧
        ∃ t ∈ ts, ∃ v ∈ t.Vout, d.doc.TxIDBelongTo = t.Txid ∧
          d.doc.VoutIndex = v.N := by
  intro ts
  induction ts with
  | nil => intro s d hd; exact absurd hd (List.not_mem_nil d)
  | cons t rest ih =>
    intro s d hd
    rw [mkBlockDocs_cons] at hd
    rcases List.mem_append.mp hd with hd | hd
    · obtain ⟨p1, p2, p3, v, hv, p4, p5, p6⟩ := mem_mkVoutDocs t t.Vout s d hd
      exact ⟨p2, p3, t, List.mem_cons_self t rest, v, hv, p1, p4⟩
    · obtain ⟨p1, p2, t2, ht2, v, hv, p3, p4⟩ := ih (s + countIndexed t.Vout + 1) d hd
      exact ⟨p1, Nat.le_trans (by omega) p2, t2, List.mem_cons_of_mem t ht2, v, hv, p3, p4⟩

theorem BTCSyncTxGo_closed (blockHash : String) :
    ∀ (ts : List Tx) (st : Store),
      st.updateBalanceFails = false →
      (∀ tx ∈ ts, ∀ vin ∈ tx.Vin,
        (∀ d ∈ st.vouts, d.doc.TxIDBelongTo ≠ vin.Txid) ∧
        ∀ tx2 ∈ ts, tx2.Txid ≠ vin.Txid) →
      (∀ tx ∈ ts, ∀ v2 ∈ tx.Vout, ∀ a ∈ v2.Addresses, listHas st.balances a) →
      ∃ st1 evs, BTCSyncTxGo st blockHash ts = .ok (st1, evs) ∧
        st1.vouts = st.vouts ++ mkBlockDocs st.nextId ts ∧
        st1.balances = applyPairs st.balances (blockCredits ts) ∧
        st1.blocks = st.blocks ∧
        st1.updateBalanceFails = st.updateBalanceFails := by
  intro ts
  induction ts with
  | nil =>
    intro st hflag hv hpres
    refine ⟨st, [], rfl, ?_, rfl, rfl, rfl⟩
    rw [show mkBlockDocs st.nextId [] = [] from rfl, List.append_nil]
  | cons t rest ih =>
    intro st hflag hv hpres
    obtain ⟨st1, evs1, heq1, o1, o2, o3, o4, o5⟩ :=
      BTCSyncTxOne_closed st blockHash t hflag
        (fun vin hvin => (hv t (List.mem_cons_self t rest) vin hvin).1)
        (hpres t (List.mem_cons_self t rest))
    have hflag1 : st1.updateBalanceFails = false := o4.trans hflag
    have hv1 : ∀ tx ∈ rest, ∀ vin ∈ tx.Vin,
        (∀ d ∈ st1.vouts, d.doc.TxIDBelongTo ≠ vin.Txid) ∧
        ∀ tx2 ∈ rest, tx2.Txid ≠ vin.Txid := by
      intro tx htx vin hvin
      have hvo := hv tx (List.mem_cons_of_mem t htx) vin hvin
      refine ⟨?_, fun tx2 htx2 => hvo.2 tx2 (List.mem_cons_of_mem t htx2)⟩
      intro d hd
      rw [o1] at hd
      rcases List.mem_append.mp hd with hd | hd
      · exact hvo.1 d hd
      · obtain ⟨p1, p2, p3, v2, hv2, p4⟩ := mem_mkVoutDocs t t.Vout st.nextId d hd
        rw [p1]
        exact hvo.2 t (List.mem_cons_self t rest)
    have hpres1 : ∀ tx ∈ rest, ∀ v2 ∈ tx.Vout, ∀ a ∈ v2.Addresses,
        listHas st1.balances a := by
      intro tx htx v2 hv2 a ha
      refine listHas_mono_of_shape st.balances st1.balances ?_ a
        (hpres tx (List.mem_cons_of_mem t htx) v2 hv2 a ha)
      rw [o2, applyPairs_shape]
    obtain ⟨st2, evs2, heq2, g1, g2, g3, g4⟩ := ih st1 hflag1 hv1 hpres1
    refine ⟨st2, evs1 ++ evs2, ?_, ?_, ?_, g3.trans o3, g4.trans o4⟩
    · rw [BTCSyncTxGo, heq1]
      dsimp only
      rw [heq2]
    · rw [g1, o1, o5, mkBlockDocs_cons, List.append_assoc]
    · rw [g2, o2, ← applyPairs_append, blockCredits_cons]
      rfl

/-! ### Closed forms of the rollback engine under the amended hypotheses -/

theorem negPairs_append (p q : List (String × ℚ)) :
    negPairs (p ++ q) = negPairs p ++ negPairs q := List.map_append _ _ _

theorem negPairs_map_value (l : List String) (v : ℚ) :
    negPairs (l.map fun a => (a, v)) = l.map fun a => (a, -v) := by
  unfold negPairs
  rw [List.map_map]
  rfl

theorem mem_listKeys (ts : List Tx) (t : Tx) (v : TxVout) (ht : t ∈ ts)
    (hv : v ∈ t.Vout) : (t.Txid, v.N) ∈ listKeys ts := by
  unfold listKeys
  exact List.mem_flatten.mpr ⟨t.Vout.map fun v => (t.Txid, v.N),
    List.mem_map_of_mem _ ht, List.mem_map_of_mem _ hv⟩

theorem FindBTCBlockByHeight_congr (st1 st2 : Store)
    (h : st1.blocks = st2.blocks) (height : Int) :
    FindBTCBlockByHeight st1 height = FindBTCBlockByHeight st2 height := by
  unfold FindBTCBlockByHeight
  rw [h]

theorem UpdateBTCBlanceByVoutGo_closed_sub (value : ℚ) :
    ∀ (addrs : List String) (st : Store),
      st.updateBalanceFails = false →
      (∀ a ∈ addrs, listHas st.balances a) →
      ∃ st1 applied,
        UpdateBTCBlanceByVoutGo st value "sub" addrs = .ok (st1, applied) ∧
        st1.balances = applyPairs st.balances (addrs.map fun a => (a, -value)) ∧
        st1.vouts = st.vouts ∧ st1.blocks = st.blocks ∧ st1.txs = st.txs ∧
        st1.updateBalanceFails = st.updateBalanceFails ∧
        st1.nextId = st.nextId := by
  intro addrs
  induction addrs with
  | nil =>
    intro st hflag hpres
    exact ⟨st, [], rfl, rfl, rfl, rfl, rfl, rfl, rfl⟩
  | cons a rest ih =>
    intro st hflag hpres
    obtain ⟨d, hf⟩ := exists_find?_of_listHas st.balances a
      (hpres a (List.mem_cons_self a rest))
    have hFB : FindBalanceWithAddressOrInitWithAmount st a value =
        (some d.id, d.doc) := by
      unfold FindBalanceWithAddressOrInitWithAmount
      rw [hf]
    have hflag2 : ({ st with balances := upd1 st.balances a (-value) } : Store).updateBalanceFails = false := hflag
    have hpres2 : ∀ a2 ∈ rest,
        listHas ({ st with balances := upd1 st.balances a (-value) } : Store).balances a2 :=
      fun a2 ha2 =>
        listHas_mono_of_shape st.balances _
          (upd1_shape st.balances a (-value)).symm a2
          (hpres a2 (List.mem_cons_of_mem a ha2))
    obtain ⟨st2, applied, heq, b1, b2, b3, b4, b5, b6⟩ :=
      ih { st with balances := upd1 st.balances a (-value) } hflag2 hpres2
    refine ⟨st2, (a, value) :: applied, ?_, ?_, b2, b3, b4, b5, b6⟩
    · rw [UpdateBTCBlanceByVoutGo, hFB]
      dsimp only
      rw [UpdateBTCBlance_sub st d.id d.doc value]
      dsimp only
      rw [writeBalanceAmount_present_sub st a value d hf hflag, heq]
    · rw [b1, List.map_cons, applyPairs_cons]

theorem rollbackTxVins_noop (tx : Tx) :
    ∀ (vins : List Vin) (st : Store),
      (∀ vin ∈ vins, ∀ d ∈ st.vouts,
        d.doc.TxIDBelongTo ≠ vin.Txid ∨ d.doc.Used = none) →
      rollbackTxVins st tx vins = st := by
  intro vins
  induction vins with
  | nil => intro st h; rfl
  | cons vin rest ih =>
    intro st h
    have hrest := fun vin2 hv2 => h vin2 (List.mem_cons_of_mem vin hv2)
    by_cases hcb : isCoinbaseTx tx = true
    · rw [rollbackTxVins, if_pos hcb]
      exact ih st hrest
    · have hfind : FindVoutByUsedFieldAndBelongTxID st vin tx.Txid = none := by
        unfold FindVoutByUsedFieldAndBelongTxID
        rw [List.find?_eq_none]
        intro d hd
        simp only [decide_eq_true_eq]
        rintro ⟨h1, h2⟩
        rcases h vin (List.mem_cons_self vin rest) d hd with h3 | h3
        · exact h3 h1
        · rw [h3] at h2
          exact Option.noConfusion h2
      rw [rollbackTxVins, if_neg hcb, hfind]
      exact ih st hrest

theorem rollbackTxVouts_closed (tx : Tx) :
    ∀ (vouts : List TxVout) (st : Store) (pre R : List VoutDoc) (sIdx : Nat),
      st.vouts = pre ++ (mkVoutDocs sIdx tx vouts ++ R) →
      st.updateBalanceFails = false →
      (∀ d ∈ pre, ∀ v ∈ vouts,
        ¬(d.doc.TxIDBelongTo = tx.Txid ∧ d.doc.VoutIndex = v.N)) →
      (∀ d ∈ R, ∀ v ∈ vouts,
        ¬(d.doc.TxIDBelongTo = tx.Txid ∧ d.doc.VoutIndex = v.N)) →
      (∀ d ∈ pre, d.id < sIdx) →
      (∀ d ∈ R, sIdx + countIndexed vouts < d.id) →
      (∀ v ∈ vouts, ∀ a ∈ v.Addresses, listHas st.balances a) →
      (vouts.map fun v => v.N).Nodup →
      (rollbackTxVouts st tx vouts).vouts = pre ++ R ∧
      (rollbackTxVouts st tx vouts).balances =
        applyPairs st.balances (negPairs (creditsOfVouts vouts)) ∧
      (rollbackTxVouts st tx vouts).blocks = st.blocks ∧
      (rollbackTxVouts st tx vouts).txs = st.txs ∧
      (rollbackTxVouts st tx vouts).updateBalanceFails =
        st.updateBalanceFails := by
  intro vouts
  induction vouts with
  | nil =>
    intro st pre R sIdx hst hflag hpre hR hpreId hRId hpres hN
    exact ⟨hst, rfl, rfl, rfl, rfl⟩
  | cons v rest ih =>
    intro st pre R sIdx hst hflag hpre hR hpreId hRId hpres hN
    rw [List.map_cons, List.nodup_cons] at hN
    cases haddr : BTCVoutAddress v with
    | none =>
      have hfind : FindVoutByVoutIndexAndBelongTxID st tx.Txid v.N = none := by
        unfold FindVoutByVoutIndexAndBelongTxID
        rw [List.find?_eq_none]
        intro d hd
        simp only [decide_eq_true_eq]
        rintro ⟨h1, h2⟩
        rw [hst] at hd
        rcases List.mem_append.mp hd with hd | hd
        · exact hpre d hd v (List.mem_cons_self v rest) ⟨h1, h2⟩
        rcases List.mem_append.mp hd with hd | hd
        · rw [mkVoutDocs_cons_none sIdx tx v rest haddr] at hd
          obtain ⟨p1, p2, p3, v2, hv2, p4, p5, p6⟩ :=
            mem_mkVoutDocs tx rest sIdx d hd
          refine hN.1 ?_
          rw [← h2, p4]
          exact List.mem_map_of_mem _ hv2
        · exact hR d hd v (List.mem_cons_self v rest) ⟨h1, h2⟩
      have hstep : rollbackTxVouts st tx (v :: rest) =
          rollbackTxVouts st tx rest := by
        rw [rollbackTxVouts, hfind]
      have hRId2 : ∀ d ∈ R, sIdx + countIndexed rest < d.id := by
        intro d hd
        have h2 := hRId d hd
        rw [countIndexed_cons_none v rest haddr] at h2
        exact h2
      obtain ⟨g1, g2, g3, g4, g5⟩ := ih st pre R sIdx
        (by rw [hst, mkVoutDocs_cons_none sIdx tx v rest haddr])
        hflag
        (fun d hd v2 hv2 => hpre d hd v2 (List.mem_cons_of_mem v hv2))
        (fun d hd v2 hv2 => hR d hd v2 (List.mem_cons_of_mem v hv2))
        hpreId hRId2
        (fun v2 hv2 => hpres v2 (List.mem_cons_of_mem v hv2))
        hN.2
      refine ⟨hstep ▸ g1, ?_, hstep ▸ g3, hstep ▸ g4, hstep ▸ g5⟩
      rw [hstep, g2, creditsOfVouts_cons, creditsOfVout_none v haddr,
        List.nil_append]
    | some addrs =>
      have haddr2 : addrs = v.Addresses := by
        unfold BTCVoutAddress at haddr
        by_cases h2 : v.Addresses = []
        · rw [if_pos h2] at haddr
          exact Option.noConfusion haddr
        · rw [if_neg h2] at haddr
          injection haddr with h3
          exact h3.symm
      have hmk := mkVoutDocs_cons_some sIdx tx v rest addrs haddr
      have hpre_none : (pre.find? fun d =>
          decide (d.doc.TxIDBelongTo = tx.Txid ∧ d.doc.VoutIndex = v.N)) = none := by
        rw [List.find?_eq_none]
        intro d hd
        simp only [decide_eq_true_eq]
        exact hpre d hd v (List.mem_cons_self v rest)
      have hfind : FindVoutByVoutIndexAndBelongTxID st tx.Txid v.N =
          some ⟨sIdx, BTCVoutStream v tx.Vin tx.Txid⟩ := by
        unfold FindVoutByVoutIndexAndBelongTxID
        rw [hst, hmk, find?_append_of_none _ pre _ hpre_none,
          List.cons_append, List.find?_cons_of_pos _ (by simp [BTCVoutStream])]
      have hfilter_pre : pre.filter (fun d => d.id ≠ sIdx) = pre :=
        List.filter_eq_self.mpr fun d hd => by
          have h2 := hpreId d hd
          simp
          omega
      have hfilter_mk : (mkVoutDocs (sIdx + 1) tx rest).filter
          (fun d => d.id ≠ sIdx) = mkVoutDocs (sIdx + 1) tx rest :=
        List.filter_eq_self.mpr fun d hd => by
          have h2 := (mem_mkVoutDocs tx rest (sIdx + 1) d hd).2.2.1
          simp
          omega
      have hfilter_R : R.filter (fun d => d.id ≠ sIdx) = R :=
        List.filter_eq_self.mpr fun d hd => by
          have h2 := hRId d hd
          simp
          omega
      have hdel : (deleteVout st sIdx).vouts =
          pre ++ (mkVoutDocs (sIdx + 1) tx rest ++ R) := by
        show st.vouts.filter (fun d => d.id ≠ sIdx) = _
        rw [hst, hmk, List.cons_append, List.filter_append, List.filter_cons]
        rw [if_neg (by simp)]
        rw [List.filter_append, hfilter_pre, hfilter_mk, hfilter_R]
      have hflagD : (deleteVout st sIdx).updateBalanceFails = false := hflag
      have hpresD : ∀ a ∈ v.Addresses, listHas (deleteVout st sIdx).balances a :=
        fun a ha => hpres v (List.mem_cons_self v rest) a ha
      obtain ⟨stB, applied, heqB, u1, u2, u3, u4, u5, u6⟩ :=
        UpdateBTCBlanceByVoutGo_closed_sub v.Value v.Addresses
          (deleteVout st sIdx) hflagD hpresD
      have hstep : rollbackTxVouts st tx (v :: rest) =
          rollbackTxVouts stB tx rest := by
        rw [rollbackTxVouts, hfind]
        dsimp only
        rw [show UpdateBTCBlanceByVout (deleteVout st sIdx)
          (BTCVoutStream v tx.Vin tx.Txid) "sub" = .ok (stB, applied) from heqB]
      have hRId2 : ∀ d ∈ R, sIdx + 1 + countIndexed rest < d.id := by
        intro d hd
        have h2 := hRId d hd
        rw [countIndexed_cons_some v rest addrs haddr] at h2
        omega
      have hshapeB : st.balances.map shapeProj = stB.balances.map shapeProj := by
        rw [u1]
        exact (applyPairs_shape _ _).symm
      have hpresB : ∀ v2 ∈ rest, ∀ a ∈ v2.Addresses, listHas stB.balances a :=
        fun v2 hv2 a ha =>
          listHas_mono_of_shape st.balances stB.balances hshapeB a
            (hpres v2 (List.mem_cons_of_mem v hv2) a ha)
      obtain ⟨g1, g2, g3, g4, g5⟩ := ih stB pre R (sIdx + 1)
        (u2.trans hdel)
        (u5.trans hflagD)
        (fun d hd v2 hv2 => hpre d hd v2 (List.mem_cons_of_mem v hv2))
        (fun d hd v2 hv2 => hR d hd v2 (List.mem_cons_of_mem v hv2))
        (fun d hd => Nat.lt_trans (hpreId d hd) (Nat.lt_succ_self sIdx))
        hRId2
        hpresB
        hN.2
      refine ⟨hstep ▸ g1, ?_, ?_, ?_, ?_⟩
      · rw [hstep, g2, u1]
        show applyPairs (applyPairs st.balances
          (v.Addresses.map fun a => (a, -v.Value)))
          (negPairs (creditsOfVouts rest)) = _
        rw [← applyPairs_append, creditsOfVouts_cons, negPairs_append,
          creditsOfVout_some v addrs haddr, haddr2, negPairs_map_value]
      · rw [hstep, g3]
        exact u3
      · rw [hstep, g4]
        exact u4
      · rw [hstep, g5]
        exact u5.trans rfl

theorem rollbackTxs_closed :
    ∀ (ts : List Tx) (st : Store) (pre : List VoutDoc) (s : Nat),
      st.vouts = pre ++ mkBlockDocs s ts →
      st.updateBalanceFails = false →
      (∀ d ∈ pre, d.id < s) →
      (∀ d ∈ pre, ∀ t ∈ ts, ∀ v ∈ t.Vout,
        ¬(d.doc.TxIDBelongTo = t.Txid ∧ d.doc.VoutIndex = v.N)) →
      (∀ t ∈ ts, ∀ vin ∈ t.Vin, ∀ d ∈ pre, d.doc.TxIDBelongTo ≠ vin.Txid) →
      (listKeys ts).Nodup →
      (∀ t ∈ ts, ∀ v ∈ t.Vout, ∀ a ∈ v.Addresses, listHas st.balances a) →
      (rollbackTxs st ts).vouts = pre ∧
      (rollbackTxs st ts).balances =
        applyPairs st.balances (negPairs (blockCredits ts)) ∧
      (rollbackTxs st ts).blocks = st.blocks ∧
      (rollbackTxs st ts).updateBalanceFails = st.updateBalanceFails := by
  intro ts
  induction ts with
  | nil =>
    intro st pre s hst hflag hpreId hpairs hVinPre hKeys hpres
    refine ⟨?_, rfl, rfl, rfl⟩
    show st.vouts = pre
    rw [hst]
    exact List.append_nil pre
  | cons t rest ih =>
    intro st pre s hst hflag hpreId hpairs hVinPre hKeys hpres
    rw [listKeys_cons, List.nodup_append] at hKeys
    have hvins_noop : rollbackTxVins st t t.Vin = st := by
      refine rollbackTxVins_noop t t.Vin st ?_
      intro vin hvin d hd
      rw [hst] at hd
      rcases List.mem_append.mp hd with hd | hd
      · exact Or.inl (hVinPre t (List.mem_cons_self t rest) vin hvin d hd)
      · exact Or.inr (mem_mkBlockDocs (t :: rest) s d hd).1
    have hN : (t.Vout.map fun v => v.N).Nodup := by
      have h1 := hKeys.1
      have h2 : t.Vout.map (fun v => (t.Txid, v.N)) =
          (t.Vout.map fun v => v.N).map (fun n => (t.Txid, n)) := by
        rw [List.map_map]
        rfl
      rw [h2] at h1
      exact h1.of_map _
    have hRpairs : ∀ d ∈ mkBlockDocs (s + countIndexed t.Vout + 1) rest,
        ∀ v ∈ t.Vout,
        ¬(d.doc.TxIDBelongTo = t.Txid ∧ d.doc.VoutIndex = v.N) := by
      rintro d hd v hv ⟨h1, h2⟩
      obtain ⟨p1, p2, t2, ht2, v2, hv2, p3, p4⟩ :=
        mem_mkBlockDocs rest (s + countIndexed t.Vout + 1) d hd
      have hmem1 : (t.Txid, v.N) ∈ t.Vout.map fun v => (t.Txid, v.N) :=
        List.mem_map_of_mem _ hv
      have hmem2 : (t.Txid, v.N) ∈ listKeys rest := by
        have h5 : (t2.Txid, v2.N) ∈ listKeys rest := mem_listKeys rest t2 v2 ht2 hv2
        rw [← p3, ← p4, h1, h2] at h5
        exact h5
      exact hKeys.2.2 hmem1 hmem2
    obtain ⟨r1, r2, r3, r4, r5⟩ := rollbackTxVouts_closed t t.Vout st pre
      (mkBlockDocs (s + countIndexed t.Vout + 1) rest) s
      (by rw [hst, mkBlockDocs_cons])
      hflag
      (fun d hd => hpairs d hd t (List.mem_cons_self t rest))
      hRpairs
      hpreId
      (fun d hd => by
        have h2 := (mem_mkBlockDocs rest (s + countIndexed t.Vout + 1) d hd).2.1
        omega)
      (hpres t (List.mem_cons_self t rest))
      hN
    have hgo : rollbackTxs st (t :: rest) =
        rollbackTxs (rollbackTxVouts st t t.Vout) rest := by
      rw [rollbackTxs, hvins_noop]
    have hshapeV : st.balances.map shapeProj =
        (rollbackTxVouts st t t.Vout).balances.map shapeProj := by
      rw [r2]
      exact (applyPairs_shape _ _).symm
    obtain ⟨g1, g2, g3, g4⟩ := ih (rollbackTxVouts st t t.Vout) pre
      (s + countIndexed t.Vout + 1)
      r1
      (r5.trans hflag)
      (fun d hd => by have h2 := hpreId d hd; omega)
      (fun d hd t2 ht2 => hpairs d hd t2 (List.mem_cons_of_mem t ht2))
      (fun t2 ht2 vin hvin => hVinPre t2 (List.mem_cons_of_mem t ht2) vin hvin)
      hKeys.2.1
      (fun t2 ht2 v hv a ha =>
        listHas_mono_of_shape st.balances _ hshapeV a
          (hpres t2 (List.mem_cons_of_mem t ht2) v hv a ha))
    refine ⟨hgo ▸ g1, ?_, ?_, ?_⟩
    · rw [hgo, g2, r2, ← applyPairs_append, blockCredits_cons, negPairs_append]
      rfl
    · rw [hgo, g3]
      exact r3
    · rw [hgo, g4]
      exact r5

/-- Claim C4, witness at a concrete non-coinbase transaction whose input
resolves to a stored 5-unit output and which has no outputs (fee 5). -/
theorem c4_fee_identity_witness :
    ∃ d : TxDoc,
      (⟨c3Store.blocks, [⟨2, ⟨"t1", "h3", 5, 0, [⟨"a", 5⟩], []⟩⟩],
        [⟨0, ⟨"t0", 5, 0, false, ["a"], some ⟨"t1", 0⟩⟩⟩],
        [⟨1, ⟨"a", 5⟩⟩], 3, true⟩ : Store).txs = c3Store.txs ++ [d] ∧
      d.doc.Fee = if isCoinbaseTx c3Tx then 0
        else vinFoundSum c3Store c3Tx.Vin - voutIndexedSum c3Tx.Vout :=
  c4_fee_identity c3Store "h3" c3Tx
    (⟨c3Store.blocks, [⟨2, ⟨"t1", "h3", 5, 0, [⟨"a", 5⟩], []⟩⟩],
      [⟨0, ⟨"t0", 5, 0, false, ["a"], some ⟨"t1", 0⟩⟩⟩],
      [⟨1, ⟨"a", 5⟩⟩], 3, true⟩)
    [⟨"t1", "a", .debit, 5⟩] (by with_unfolding_all rfl)

/-- Claim C1 (amended): syncing the archived block at `height` and then
rolling that height back restores the UnspentOutput index and the
AddressBalance index to their pre-sync contents, provided that no input
of the block resolves against the store or the block itself during sync,
the block's output keys are pairwise distinct and absent from the
pre-sync index, every payee address already has a balance record, the
store's id counter and balance ids are well-formed, and balance writes
succeed.  (Without these provisos the law fails; see the
counterexample.) -/
theorem c1_sync_rollback_inverse_amended (st0 : Store) (frm height : Int)
    (b : Block)
    (hflag : st0.updateBalanceFails = false)
    (hwfv : voutIdsBounded st0)
    (hwfb : balanceIdsNodup st0)
    (hblk : FindBTCBlockByHeight st0 height = some b)
    (hvins : blockVinsUnresolvable st0 b)
    (hkeys : blockKeysFresh st0 b)
    (hpres : blockAddressesPresent st0 b) :
    (RollbackTxVoutBalanceTypeByBlockHeight (syncStore st0 frm height b)
      height).1.vouts = st0.vouts ∧
    (RollbackTxVoutBalanceTypeByBlockHeight (syncStore st0 frm height b)
      height).1.balances = st0.balances := by
  obtain ⟨stS, evs, heqS, s1, s2, s3, s4⟩ :=
    BTCSyncTxGo_closed b.Hash b.Tx st0 hflag hvins
      (fun tx htx v hv a ha => hpres tx htx v hv a ha)
  have hsync : syncStore st0 frm height b = stS := by
    unfold syncStore BTCSyncTx
    dsimp only
    rw [heqS]
  rw [hsync]
  have hblkS : FindBTCBlockByHeight stS height = some b :=
    (FindBTCBlockByHeight_congr stS st0 s3 height).trans hblk
  unfold RollbackTxVoutBalanceTypeByBlockHeight
  rw [hblkS]
  dsimp only
  have hpairs : ∀ d ∈ st0.vouts, ∀ t ∈ b.Tx, ∀ v ∈ t.Vout,
      ¬(d.doc.TxIDBelongTo = t.Txid ∧ d.doc.VoutIndex = v.N) := by
    rintro d hd t ht v hv ⟨h1, h2⟩
    refine hkeys.2 d hd ?_
    rw [h1, h2]
    exact mem_listKeys b.Tx t v ht hv
  have hpresD : ∀ t ∈ b.Tx, ∀ v ∈ t.Vout, ∀ a ∈ v.Addresses,
      listHas (DeleteTxstreamByBlockHash stS b.Hash).balances a := by
    intro t ht v hv a ha
    refine listHas_mono_of_shape st0.balances _ ?_ a (hpres t ht v hv a ha)
    show st0.balances.map shapeProj = stS.balances.map shapeProj
    rw [s2]
    exact (applyPairs_shape _ _).symm
  obtain ⟨r1, r2, r3, r4⟩ := rollbackTxs_closed b.Tx
    (DeleteTxstreamByBlockHash stS b.Hash) st0.vouts st0.nextId
    s1
    (s4.trans hflag)
    hwfv
    hpairs
    (fun t ht vin hvin d hd => (hvins t ht vin hvin).1 d hd)
    hkeys.1
    hpresD
  refine ⟨r1, ?_⟩
  rw [r2]
  show applyPairs stS.balances (negPairs (blockCredits b.Tx)) = st0.balances
  rw [s2]
  have hcancel := applyPairs_cancel (blockCredits b.Tx) st0.balances hwfb []
  rw [List.append_nil] at hcancel
  exact hcancel

/-- Witness for the amended C1: a coinbase-only block paying address `A`,
whose balance record exists pre-sync; sync then rollback restores both
indexes exactly. -/
theorem c1_sync_rollback_inverse_amended_witness :
    (w1Store.updateBalanceFails = false ∧
      voutIdsBounded w1Store ∧ balanceIdsNodup w1Store ∧
      FindBTCBlockByHeight w1Store 5 = some w1Block ∧
      blockVinsUnresolvable w1Store w1Block ∧
      blockKeysFresh w1Store w1Block ∧
      blockAddressesPresent w1Store w1Block) ∧
    (RollbackTxVoutBalanceTypeByBlockHeight (syncStore w1Store 0 5 w1Block)
      5).1.vouts = w1Store.vouts ∧
    (RollbackTxVoutBalanceTypeByBlockHeight (syncStore w1Store 0 5 w1Block)
      5).1.balances = w1Store.balances :=
  ⟨⟨rfl, by unfold voutIdsBounded; decide, by unfold balanceIdsNodup; decide,
      by with_unfolding_all rfl, by unfold blockVinsUnresolvable; decide,
      by unfold blockKeysFresh blockKeys; decide,
      by unfold blockAddressesPresent; decide⟩,
    c1_sync_rollback_inverse_amended w1Store 0 5 w1Block rfl
      (by unfold voutIdsBounded; decide)
      (by unfold balanceIdsNodup; decide)
      (by with_unfolding_all rfl)
      (by unfold blockVinsUnresolvable; decide)
      (by unfold blockKeysFresh blockKeys; decide)
      (by unfold blockAddressesPresent; decide)⟩

end BtcChaindata
